import Mathlib

/-!
Verification development for the PasteMD clipboard/hotkey subsystem.

This file gives a shallow embedding of the Python code in
`src/pastemd/utils/clipboard.py` (CF_HTML fragment extraction and the
clipboard availability poller), `src/pastemd/utils/win32/hotkey_checker.py`
(the hotkey validator) and `src/pastemd/domains/hotkey/recorder.py`
(the hotkey recording state machine), and proves the specification
claims about them.

Modelling conventions:
- Python `bytes` values are `List Nat` (byte values 0..255).
- Python `str` values are Lean `String`; code that manipulates characters
  works over `String.data`.  The ASCII fragment of Python string methods
  (`lower`, `upper`, `title`, `isdigit`, `strip`, ...) is modelled exactly;
  all strings these programs manipulate are ASCII.
- Python `set` values are duplicate-free `List String` values; the
  operations used by the code (`add`, `discard`, `==`, `in`, `&`, `-`)
  are modelled as order-insensitive list operations.
- Fallible Python operations return `Option`/`Except`; a raised exception
  that the surrounding code does not catch shows up as `Except.error`.
- External effects (the Win32 clipboard, the pynput listener, the i18n
  table lookup `t(...)`, logging) are at the boundary of the embedded
  component: clipboard calls become explicit environment inputs, callback
  invocations become explicit output events, and localized messages are
  identified by their translation keys.
-/

namespace PasteMD

/-! ## Python string and list primitives (ASCII model) -/

/-- Model of Python `str.lower()` restricted to ASCII: lowercase each char. -/
def pyLower (s : String) : String := ⟨s.data.map Char.toLower⟩

/-- Model of Python `str.upper()` restricted to ASCII: uppercase each char. -/
def pyUpper (s : String) : String := ⟨s.data.map Char.toUpper⟩

/-- One step of Python `str.title()`: capitalize letters that follow a
non-letter, lowercase letters that follow a letter. -/
def pyTitleAux : List Char → Bool → List Char
  | [], _ => []
  | c :: cs, prevAlpha =>
    if c.isAlpha then
      (if prevAlpha then c.toLower else c.toUpper) :: pyTitleAux cs true
    else
      c :: pyTitleAux cs false

/-- Model of Python `str.title()` restricted to ASCII. -/
def pyTitle (s : String) : String := ⟨pyTitleAux s.data false⟩

/-- Strict lexicographic (code-point) comparison of character lists; the
order Python uses to compare strings. -/
def strLtB : List Char → List Char → Bool
  | [], [] => false
  | [], _ :: _ => true
  | _ :: _, [] => false
  | a :: as, b :: bs => if a < b then true else if a = b then strLtB as bs else false

/-- Python `<` on strings. -/
def pyStrLt (a b : String) : Bool := strLtB a.data b.data

/-- Insert a string into a list, after every element that compares below it;
the insertion step of a stable ascending sort, as Python `sorted` produces. -/
def insertSorted (x : String) : List String → List String
  | [] => [x]
  | y :: ys => if pyStrLt y x then y :: insertSorted x ys else x :: y :: ys

/-- Model of Python `sorted` on a list of strings (ascending, code-point order). -/
def pySorted : List String → List String
  | [] => []
  | x :: xs => insertSorted x (pySorted xs)

/-- The characters Python `str.isspace()` accepts (ASCII plus the common
Unicode whitespace code points). -/
def isPySpace (c : Char) : Bool :=
  c.toNat ∈ [9, 10, 11, 12, 13, 28, 29, 30, 31, 32, 133, 160,
              5760, 8192, 8193, 8194, 8195, 8196, 8197, 8198, 8199, 8200,
              8201, 8202, 8232, 8233, 8239, 8287, 12288]

/-- Drop elements satisfying `p` from both ends of a list. -/
def stripList {α : Type} (p : α → Bool) (l : List α) : List α :=
  ((l.dropWhile p).reverse.dropWhile p).reverse

/-- Model of Python `str.strip()` with no argument. -/
def pyStrip (s : String) : String := ⟨stripList isPySpace s.data⟩

/-- ASCII whitespace bytes, as stripped by Python `bytes.strip()`. -/
def isAsciiSpaceByte (b : Nat) : Bool := b ∈ [9, 10, 11, 12, 13, 32]

/-- Model of Python `bytes.strip()` with no argument. -/
def bytesStrip (l : List Nat) : List Nat := stripList isAsciiSpaceByte l

/-- Model of Python `str.isdigit()` restricted to ASCII: non-empty and all
decimal digits. -/
def pyIsDigit (s : String) : Bool := !s.data.isEmpty && s.data.all Char.isDigit

/-- Characters that terminate a line for Python `str.splitlines()`. -/
def isStrLineBreak (c : Char) : Bool :=
  c.toNat ∈ [10, 11, 12, 13, 28, 29, 30, 133, 8232, 8233]

/-- Worker for `str.splitlines()`: `acc` holds the current line reversed. -/
def strSplitlinesAux : List Char → List Char → List (List Char)
  | [], acc => if acc.isEmpty then [] else [acc.reverse]
  | '\r' :: '\n' :: rest, acc => acc.reverse :: strSplitlinesAux rest []
  | c :: rest, acc =>
    if isStrLineBreak c then acc.reverse :: strSplitlinesAux rest []
    else strSplitlinesAux rest (c :: acc)

/-- Model of Python `str.splitlines()`. -/
def strSplitlines (s : String) : List String :=
  (strSplitlinesAux s.data []).map fun l => ⟨l⟩

/-- Worker for `bytes.splitlines()`: only `\r`, `\n` and `\r\n` break lines. -/
def bytesSplitlinesAux : List Nat → List Nat → List (List Nat)
  | [], acc => if acc.isEmpty then [] else [acc.reverse]
  | 13 :: 10 :: rest, acc => acc.reverse :: bytesSplitlinesAux rest []
  | b :: rest, acc =>
    if b = 13 ∨ b = 10 then acc.reverse :: bytesSplitlinesAux rest []
    else bytesSplitlinesAux rest (b :: acc)

/-- Model of Python `bytes.splitlines()`. -/
def bytesSplitlines (l : List Nat) : List (List Nat) := bytesSplitlinesAux l []

/-- Numeric value of a list of decimal digit characters (most significant first). -/
def natOfDigits (l : List Char) : Nat :=
  l.foldl (fun acc c => 10 * acc + (c.toNat - 48)) 0

/-- Validity of the part of a Python integer literal after its first digit:
digits, with single underscores allowed between digits. -/
def pyIntRest : List Char → Bool
  | [] => true
  | c :: rest =>
    if c = '_' then
      match rest with
      | [] => false
      | c2 :: rest2 => c2.isDigit && pyIntRest rest2
    else c.isDigit && pyIntRest rest

/-- Validity of the digit part of a Python integer literal: non-empty,
starting with a digit. -/
def pyIntDigitsOk : List Char → Bool
  | [] => false
  | c :: rest => c.isDigit && pyIntRest rest

/-- Model of Python `int(str)`: optional surrounding whitespace, optional
sign, then decimal digits (underscores allowed between digits).  `none`
models a raised `ValueError`. -/
def pyInt (s : String) : Option Int :=
  match stripList isPySpace s.data with
  | [] => none
  | c :: rest =>
    if c = '+' then
      if pyIntDigitsOk rest then some (natOfDigits (rest.filter Char.isDigit)) else none
    else if c = '-' then
      if pyIntDigitsOk rest then some (-(natOfDigits (rest.filter Char.isDigit) : Int)) else none
    else
      if pyIntDigitsOk (c :: rest) then
        some (natOfDigits ((c :: rest).filter Char.isDigit))
      else none

/-- The decimal digit character for `n < 10`. -/
def pyDigitChar (n : Nat) : Char := Char.ofNat (48 + n)

/-- Fuel-driven worker producing the decimal digits of `n`. -/
def natReprAux : Nat → Nat → List Char
  | 0, _ => []
  | fuel + 1, n =>
    if n < 10 then [pyDigitChar n]
    else natReprAux fuel (n / 10) ++ [pyDigitChar (n % 10)]

/-- Model of Python `str(n)` for a non-negative integer `n`. -/
def natRepr (n : Nat) : String := ⟨natReprAux (n + 1) n⟩

/-- Clamp one Python slice index to `0..n` (negative indices count from the
end, as Python slicing does). -/
def pySliceIdx (n : Nat) (i : Int) : Nat :=
  if i < 0 then (i + n).toNat else min i.toNat n

/-- Model of the Python slice `l[a:b]` (never raises, clamps out-of-range
indices, supports negative indices). -/
def pySlice {α : Type} (l : List α) (a b : Int) : List α :=
  (l.take (pySliceIdx l.length b)).drop (pySliceIdx l.length a)

/-- Decode one byte as a Latin-free ASCII char: used for
`bytes.decode("ascii", errors="ignore")`, which drops bytes above 127. -/
def asciiDecodeIgnore (l : List Nat) : List Char :=
  (l.filter (fun b => b < 128)).map Char.ofNat

/-- Is `b` a UTF-8 continuation byte. -/
def isUtf8Cont (b : Nat) : Bool := 128 ≤ b && b ≤ 191

/-- Legal second byte of a three-byte UTF-8 sequence starting with `b1`. -/
def utf8Cont3Ok (b1 b2 : Nat) : Bool :=
  if b1 = 224 then 160 ≤ b2 && b2 ≤ 191
  else if b1 = 237 then 128 ≤ b2 && b2 ≤ 159
  else isUtf8Cont b2

/-- Legal second byte of a four-byte UTF-8 sequence starting with `b1`. -/
def utf8Cont4Ok (b1 b2 : Nat) : Bool :=
  if b1 = 240 then 144 ≤ b2 && b2 ≤ 191
  else if b1 = 244 then 128 ≤ b2 && b2 ≤ 143
  else isUtf8Cont b2

/-- Scalar value of a two-byte UTF-8 sequence. -/
def utf8Val2 (b1 b2 : Nat) : Nat := (b1 - 192) * 64 + (b2 - 128)

/-- Scalar value of a three-byte UTF-8 sequence. -/
def utf8Val3 (b1 b2 b3 : Nat) : Nat := (b1 - 224) * 4096 + (b2 - 128) * 64 + (b3 - 128)

/-- Scalar value of a four-byte UTF-8 sequence. -/
def utf8Val4 (b1 b2 b3 b4 : Nat) : Nat :=
  (b1 - 240) * 262144 + (b2 - 128) * 4096 + (b3 - 128) * 64 + (b4 - 128)

/-- Model of Python `bytes.decode("utf-8", errors="ignore")`: decode valid
sequences, skip bytes belonging to invalid ones. -/
def utf8DecodeIgnore : List Nat → List Char
  | [] => []
  | [b1] => if b1 < 128 then [Char.ofNat b1] else []
  | [b1, b2] =>
    if b1 < 128 then Char.ofNat b1 :: utf8DecodeIgnore [b2]
    else if 194 ≤ b1 && b1 ≤ 223 && isUtf8Cont b2 then [Char.ofNat (utf8Val2 b1 b2)]
    else utf8DecodeIgnore [b2]
  | [b1, b2, b3] =>
    if b1 < 128 then Char.ofNat b1 :: utf8DecodeIgnore [b2, b3]
    else if 194 ≤ b1 && b1 ≤ 223 && isUtf8Cont b2 then
      Char.ofNat (utf8Val2 b1 b2) :: utf8DecodeIgnore [b3]
    else if 224 ≤ b1 && b1 ≤ 239 && utf8Cont3Ok b1 b2 && isUtf8Cont b3 then
      [Char.ofNat (utf8Val3 b1 b2 b3)]
    else utf8DecodeIgnore [b2, b3]
  | b1 :: b2 :: b3 :: b4 :: rest =>
    if b1 < 128 then Char.ofNat b1 :: utf8DecodeIgnore (b2 :: b3 :: b4 :: rest)
    else if 194 ≤ b1 && b1 ≤ 223 && isUtf8Cont b2 then
      Char.ofNat (utf8Val2 b1 b2) :: utf8DecodeIgnore (b3 :: b4 :: rest)
    else if 224 ≤ b1 && b1 ≤ 239 && utf8Cont3Ok b1 b2 && isUtf8Cont b3 then
      Char.ofNat (utf8Val3 b1 b2 b3) :: utf8DecodeIgnore (b4 :: rest)
    else if 240 ≤ b1 && b1 ≤ 244 && utf8Cont4Ok b1 b2 && isUtf8Cont b3 && isUtf8Cont b4 then
      Char.ofNat (utf8Val4 b1 b2 b3 b4) :: utf8DecodeIgnore rest
    else utf8DecodeIgnore (b2 :: b3 :: b4 :: rest)

/-- Decode bytes to a `String`, UTF-8 best effort. -/
def utf8Str (l : List Nat) : String := ⟨utf8DecodeIgnore l⟩

/-- All positions of `l` at which the literal pattern `pat` occurs. -/
def patIndices {α : Type} [DecidableEq α] (pat l : List α) : List Nat :=
  (List.range (l.length + 1)).filter fun i => pat.isPrefixOf (l.drop i)

/-- Model of `re.search(sp + "(.*)" + ep, l, flags=re.S)` for literal
patterns `sp`, `ep` and a greedy group: the group runs from the end of the
first occurrence of `sp` to the last occurrence of `ep` after it; `none` if
no such pair exists. -/
def regexFragmentSearch {α : Type} [DecidableEq α] (sp ep l : List α) : Option (List α) :=
  match (patIndices sp l).head? with
  | none => none
  | some i =>
    let cs := i + sp.length
    match ((patIndices ep l).filter fun j => cs ≤ j).getLast? with
    | none => none
    | some j => some ((l.drop cs).take (j - cs))

/-- Fuel-driven worker for Python `str.replace`: replaces left to right,
non-overlapping. -/
def listReplaceAux {α : Type} [DecidableEq α] (pat rep : List α) : Nat → List α → List α
  | 0, l => l
  | _ + 1, [] => []
  | fuel + 1, c :: rest =>
    if pat.isPrefixOf (c :: rest) then rep ++ listReplaceAux pat rep fuel ((c :: rest).drop pat.length)
    else c :: listReplaceAux pat rep fuel rest

/-- Model of Python `str.replace(pat, rep)` for non-empty `pat`. -/
def pyReplace (s pat rep : String) : String :=
  ⟨listReplaceAux pat.data rep.data (s.data.length + 1) s.data⟩

/-- First `some` among a list of optional results; the composition the spec
describes as "first-success-wins". -/
def firstWins {α : Type} : List (Option α) → Option α
  | [] => none
  | o :: rest =>
    match o with
    | some x => some x
    | none => firstWins rest

/-! ## CF_HTML fragment extraction (`src/pastemd/utils/clipboard.py`) -/

/-- Lookup in the parsed header dictionary: Python dict semantics, the last
assignment to a key wins.  Models `meta.get(key)`. -/
def metaFind (meta : List (String × String)) (k : String) : Option String :=
  ((meta.filter fun kv => kv.1 = k).getLast?).map fun kv => kv.2

/-- Models `meta.get(key, default)`. -/
def metaGetD (meta : List (String × String)) (k d : String) : String :=
  (metaFind meta k).getD d

/-- Header parsing loop of `_extract_html_fragment_bytes`: scan lines until
the first line whose stripped form starts with `<!--`; split each line at
its first colon; keys and values are decoded as ASCII (ignoring errors) and
stripped; empty keys are dropped. -/
def collectMetaBytes : List (List Nat) → List (String × String)
  | [] => []
  | line :: rest =>
    if [60, 33, 45, 45].isPrefixOf (bytesStrip line) then []
    else
      (if line.contains 58 then
        let k := line.takeWhile fun b => b ≠ 58
        let v := (line.dropWhile fun b => b ≠ 58).tail
        let key := pyStrip ⟨asciiDecodeIgnore k⟩
        let val := pyStrip ⟨asciiDecodeIgnore v⟩
        if key ≠ "" then [(key, val)] else []
      else []) ++ collectMetaBytes rest

/-- Header parsing loop of `_extract_html_fragment` (text variant): scan
lines until the first line whose stripped form starts with `<!--`; split
each line at its first colon; keys and values are stripped (no empty-key
check in this variant). -/
def collectMetaText : List String → List (String × String)
  | [] => []
  | line :: rest =>
    if "<!--".data.isPrefixOf (pyStrip line).data then []
    else
      (if line.data.contains ':' then
        let k : String := ⟨line.data.takeWhile fun c => c ≠ ':'⟩
        let v : String := ⟨(line.data.dropWhile fun c => c ≠ ':').tail⟩
        [(pyStrip k, pyStrip v)]
      else []) ++ collectMetaText rest

/-- The bytes of the literal `<!--StartFragment-->`. -/
def startFragmentMarker : List Nat := "<!--StartFragment-->".data.map Char.toNat

/-- The bytes of the literal `<!--EndFragment-->`. -/
def endFragmentMarker : List Nat := "<!--EndFragment-->".data.map Char.toNat

/-- Embedding of `_extract_html_fragment_bytes` (clipboard.py lines
161-209): extract the CF_HTML fragment from raw bytes.  Tier 1 slices at
`StartFragment`/`EndFragment` byte offsets when they are digit strings
forming a valid range; tier 2 falls back to the `<!--StartFragment-->`
comment anchors; tier 3 to the `StartHTML`/`EndHTML` offsets (defaulting
to `0` and the full length); tier 4 returns the whole input decoded.
Every fallible step in the Python source is inside `try`/`except`, so the
function is total. -/
def extract_html_fragment_bytes (cf_html_bytes : List Nat) : String :=
  let meta := collectMetaBytes (bytesSplitlines cf_html_bytes)
  let sf := metaGetD meta "StartFragment" ""
  let ef := metaGetD meta "EndFragment" ""
  let tier1 : Option String :=
    if pyIsDigit sf && pyIsDigit ef then
      match pyInt sf, pyInt ef with
      | some start_fragment, some end_fragment =>
        if 0 ≤ start_fragment ∧ start_fragment ≤ end_fragment ∧
            end_fragment ≤ (cf_html_bytes.length : Int) then
          some (utf8Str (pySlice cf_html_bytes start_fragment end_fragment))
        else none
      | _, _ => none
    else none
  match tier1 with
  | some r => r
  | none =>
    match regexFragmentSearch startFragmentMarker endFragmentMarker cf_html_bytes with
    | some g => utf8Str g
    | none =>
      let start_html := metaGetD meta "StartHTML" "0"
      let end_html := metaGetD meta "EndHTML" (natRepr cf_html_bytes.length)
      let start : Int := if pyIsDigit start_html then (pyInt start_html).getD 0 else 0
      let stop : Int :=
        if pyIsDigit end_html then (pyInt end_html).getD cf_html_bytes.length
        else cf_html_bytes.length
      if 0 ≤ start ∧ start ≤ stop ∧ stop ≤ (cf_html_bytes.length : Int) then
        utf8Str (pySlice cf_html_bytes start stop)
      else utf8Str cf_html_bytes

/-- A raised Python exception that escapes the function. -/
inductive PyExc where
  | valueError
deriving DecidableEq

/-- Python truthiness of an optional string (`None` and `""` are falsy). -/
def pyTruthy : Option String → Bool
  | none => false
  | some s => !s.data.isEmpty

/-- Embedding of `_extract_html_fragment` (clipboard.py lines 212-253), the
text variant.  Tier 1 slices at `StartFragment`/`EndFragment` offsets with
no range validation; tier 2 uses the comment anchors; tier 3 parses
`StartHTML`/`EndHTML` with `int(...)` OUTSIDE any `try` block, so a present
but non-numeric header at that point raises `ValueError` — hence the
`Except` result type. -/
def extract_html_fragment (cf_html : String) : Except PyExc String :=
  let meta := collectMetaText (strSplitlines cf_html)
  let sf := metaFind meta "StartFragment"
  let ef := metaFind meta "EndFragment"
  let tier1 : Option String :=
    if pyTruthy sf && pyTruthy ef && pyIsDigit (sf.getD "") && pyIsDigit (ef.getD "") then
      match pyInt (sf.getD ""), pyInt (ef.getD "") with
      | some start_fragment, some end_fragment =>
        some ⟨pySlice cf_html.data start_fragment end_fragment⟩
      | _, _ => none
    else none
  match tier1 with
  | some r => .ok r
  | none =>
    match regexFragmentSearch "<!--StartFragment-->".data "<!--EndFragment-->".data cf_html.data with
    | some g => .ok ⟨g⟩
    | none =>
      match pyInt (metaGetD meta "StartHTML" "0"),
            pyInt (metaGetD meta "EndHTML" (natRepr cf_html.data.length)) with
      | some start_html, some end_html => .ok ⟨pySlice cf_html.data start_html end_html⟩
      | _, _ => .error .valueError

/-! ### Specification-side tiered extraction (from spec section 4.2)

The spec describes byte extraction as "an explicit ordered list of fallback
strategies, each returning an optional result, composed with
first-success-wins".  The definitions below are written from the spec's
words and compared with the source embedding above. -/

/-- Spec tier 1: both `StartFragment` and `EndFragment` present, numeric,
forming a valid ascending range within the data length; slice raw bytes at
those offsets and decode. -/
def specOffsetsTier (b : List Nat) : Option String :=
  match metaFind (collectMetaBytes (bytesSplitlines b)) "StartFragment",
        metaFind (collectMetaBytes (bytesSplitlines b)) "EndFragment" with
  | some sfv, some efv =>
    if sfv.data ≠ [] ∧ (∀ c ∈ sfv.data, c.isDigit = true) ∧
        efv.data ≠ [] ∧ (∀ c ∈ efv.data, c.isDigit = true) then
      if natOfDigits sfv.data ≤ natOfDigits efv.data ∧ natOfDigits efv.data ≤ b.length then
        some (utf8Str ((b.drop (natOfDigits sfv.data)).take
          (natOfDigits efv.data - natOfDigits sfv.data)))
      else none
    else none
  | _, _ => none

/-- Spec tier 2: the `<!--StartFragment-->...<!--EndFragment-->` pattern
(dot matching newlines); return the captured group decoded. -/
def specAnchorsTier (b : List Nat) : Option String :=
  (regexFragmentSearch startFragmentMarker endFragmentMarker b).map utf8Str

/-- Spec tier 3: `StartHTML`/`EndHTML` offsets, defaulting to `0` and the
full length when absent or non-numeric, if they form a valid range. -/
def specHtmlRangeTier (b : List Nat) : Option String :=
  let s :=
    match metaFind (collectMetaBytes (bytesSplitlines b)) "StartHTML" with
    | some v =>
      if v.data ≠ [] ∧ (∀ c ∈ v.data, c.isDigit = true) then natOfDigits v.data else 0
    | none => 0
  let e :=
    match metaFind (collectMetaBytes (bytesSplitlines b)) "EndHTML" with
    | some v =>
      if v.data ≠ [] ∧ (∀ c ∈ v.data, c.isDigit = true) then natOfDigits v.data else b.length
    | none => b.length
  if s ≤ e ∧ e ≤ b.length then some (utf8Str ((b.drop s).take (e - s))) else none

/-- The spec's four-tier extraction: first-success-wins over the three
optional tiers, with the whole decoded input as final fallback. -/
def cfHtmlExtractSpec (b : List Nat) : String :=
  (firstWins [specOffsetsTier b, specAnchorsTier b, specHtmlRangeTier b]).getD (utf8Str b)

/-! ## Clipboard availability poller (`_try_read_cf_html`, clipboard.py lines 24-81)

The Win32 clipboard is an external resource: each loop iteration's
interaction with it is modelled as one `PollAttempt` describing what the
environment did (exceptions included).  The deadline bounds the number of
iterations, so the polling window is the length of the attempt list. -/

/-- Outcome of `wc.OpenClipboard(None)` in one iteration. -/
inductive OpenOutcome where
  | ok
  | exc
deriving DecidableEq

/-- Outcome of `wc.IsClipboardFormatAvailable(fmt)` in one iteration. -/
inductive AvailOutcome where
  | avail
  | unavail
  | exc
deriving DecidableEq

/-- Outcome of `wc.GetClipboardData(fmt)` in one iteration. -/
inductive GetOutcome where
  | value (d : String)
  | null
  | exc
deriving DecidableEq

/-- The environment's behaviour during one iteration of the polling loop. -/
structure PollAttempt where
  openClipboard : OpenOutcome
  formatAvailable : AvailOutcome
  getData : GetOutcome
deriving DecidableEq

/-- The polling loop of `_try_read_cf_html`: an `OpenClipboard` exception
only delays the next retry; a definitive "format unavailable" returns
`none` immediately; an availability-check exception leaves `available`
as `None`, which skips both branches; a read returning data succeeds; a
read exception or `None` data only delays the next retry; an exhausted
attempt list is the elapsed deadline. -/
def tryReadCfHtmlLoop : List PollAttempt → Option String
  | [] => none
  | a :: rest =>
    match a.openClipboard with
    | .exc => tryReadCfHtmlLoop rest
    | .ok =>
      match a.formatAvailable with
      | .unavail => none
      | .exc => tryReadCfHtmlLoop rest
      | .avail =>
        match a.getData with
        | .value d => some d
        | .null => tryReadCfHtmlLoop rest
        | .exc => tryReadCfHtmlLoop rest

/-- Embedding of `_try_read_cf_html`: `registerOk = false` models
`RegisterClipboardFormat` raising, which the function turns into `none`.
The result type `Option String` reflects that no exception escapes. -/
def try_read_cf_html (registerOk : Bool) (attempts : List PollAttempt) : Option String :=
  if registerOk then tryReadCfHtmlLoop attempts else none

/-- An attempt that reads data successfully. -/
def PollAttempt.successOf (a : PollAttempt) : Option String :=
  match a.openClipboard, a.formatAvailable, a.getData with
  | .ok, .avail, .value d => some d
  | _, _, _ => none

/-- An attempt in which the availability check definitively reports the
format unavailable. -/
def PollAttempt.definitiveUnavail (a : PollAttempt) : Bool :=
  a.openClipboard = .ok ∧ a.formatAvailable = .unavail

/-- An attempt that neither succeeds nor definitively fails: every
exception, a `None` read, or a skipped read. -/
def PollAttempt.nonDeciding (a : PollAttempt) : Bool :=
  a.successOf = none && !a.definitiveUnavail

/-! ## Hotkey validator (`src/pastemd/utils/win32/hotkey_checker.py`)

Localized messages are produced by the out-of-scope i18n lookup `t(key)`;
an error is therefore identified by the translation key (and, for the
reserved-combination messages, the argument) the source passes to `t`. -/

/-- The validator's possible error messages, identified by the translation
keys the source passes to `t(...)` (plus the recorder's
`no_key_detected`). -/
inductive TransMsg where
  | no_modifier
  | no_normal_key
  | shift_only_long
  | shift_only_short
  | system_reserved_long (comboDescKey : String)
  | system_reserved_short (comboText : String)
  | no_key_detected
deriving DecidableEq

/-- `MODIFIER_KEYS` (hotkey_checker.py line 18). -/
def MODIFIER_KEYS : List String := ["ctrl", "shift", "alt", "cmd", "win"]

/-- `SYSTEM_HOTKEY_DESCRIPTIONS` (hotkey_checker.py lines 20-34): the fixed
table of OS-reserved combinations, in insertion order, each with the
translation key of its description. -/
def SYSTEM_HOTKEY_DESCRIPTIONS : List (List String × String) :=
  [(["ctrl", "c"], "hotkey.recorder.system.ctrl_c"),
   (["ctrl", "v"], "hotkey.recorder.system.ctrl_v"),
   (["ctrl", "x"], "hotkey.recorder.system.ctrl_x"),
   (["ctrl", "z"], "hotkey.recorder.system.ctrl_z"),
   (["ctrl", "y"], "hotkey.recorder.system.ctrl_y"),
   (["ctrl", "a"], "hotkey.recorder.system.ctrl_a"),
   (["ctrl", "s"], "hotkey.recorder.system.ctrl_s"),
   (["ctrl", "f"], "hotkey.recorder.system.ctrl_f"),
   (["ctrl", "p"], "hotkey.recorder.system.ctrl_p"),
   (["ctrl", "n"], "hotkey.recorder.system.ctrl_n"),
   (["ctrl", "w"], "hotkey.recorder.system.ctrl_w"),
   (["ctrl", "t"], "hotkey.recorder.system.ctrl_t"),
   (["alt", "f4"], "hotkey.recorder.system.alt_f4")]

/-- Python set equality for sets modelled as lists: mutual membership. -/
def pySetEq (a b : List String) : Bool :=
  a.all (fun x => x ∈ b) && b.all (fun x => x ∈ a)

/-- Embedding of `HotkeyChecker.validate_hotkey_keys` (hotkey_checker.py
lines 71-102): returns the error of the first failing rule, `none` when the
key set passes. -/
def validate_hotkey_keys (keys : List String) (hotkey_repr : String) (detailed : Bool) :
    Option TransMsg :=
  let has_modifier := keys.any fun k => k ∈ MODIFIER_KEYS
  let has_normal_key := keys.any fun k => k ∉ MODIFIER_KEYS
  if !has_modifier then some .no_modifier
  else if !has_normal_key then some .no_normal_key
  else if pySetEq (keys.filter fun k => k ∈ MODIFIER_KEYS) ["shift"] then
    some (if detailed then .shift_only_long else .shift_only_short)
  else
    match SYSTEM_HOTKEY_DESCRIPTIONS.find? (fun cd => pySetEq keys cd.1) with
    | some cd =>
      some (if detailed then .system_reserved_long cd.2
            else .system_reserved_short
              (if hotkey_repr ≠ "" then pyUpper hotkey_repr
               else pyUpper (String.intercalate "+" cd.1)))
    | none => none

/-! ## Hotkey recorder (`src/pastemd/domains/hotkey/recorder.py`) -/

/-- A pynput key value as the recorder sees it: a named special key
(`keyboard.Key.xxx`, which has a `.name` attribute), or a `KeyCode` with
optional virtual-key code and optional character. -/
inductive PyKey where
  | special (name : String)
  | keycode (vk : Option Nat) (char : Option Char)
deriving DecidableEq

/-- Embedding of `HotkeyRecorder._get_key_name` (recorder.py lines
104-144).  For a `KeyCode` whose `vk` is `None`, the Python comparison
`65 <= vk` raises `TypeError`, which the handler catches, returning
`None` — hence the `none` result in that case. -/
def get_key_name : PyKey → Option String
  | .special name =>
    if name = "ctrl" ∨ name = "ctrl_l" ∨ name = "ctrl_r" then some "ctrl"
    else if name = "shift" ∨ name = "shift_l" ∨ name = "shift_r" then some "shift"
    else if name = "alt" ∨ name = "alt_l" ∨ name = "alt_r" then some "alt"
    else if name = "cmd" then some "cmd"
    else some (pyLower name)
  | .keycode vk char =>
    match vk with
    | none => none
    | some v =>
      if 65 ≤ v ∧ v ≤ 90 then some ⟨[(Char.ofNat v).toLower]⟩
      else if 48 ≤ v ∧ v ≤ 57 then some ⟨[Char.ofNat v]⟩
      else if 96 ≤ v ∧ v ≤ 105 then some ("num" ++ natRepr (v - 96))
      else
        match char with
        | some c => if 32 ≤ c.toNat then some (pyLower ⟨[c]⟩) else none
        | none => none

/-- The special keys the source's modifier branches recognise (the `key in
[...]` lists of recorder.py lines 108-115). -/
def modifierSpecialKeys : List PyKey :=
  [.special "ctrl", .special "ctrl_l", .special "ctrl_r",
   .special "shift", .special "shift_l", .special "shift_r",
   .special "alt", .special "alt_l", .special "alt_r",
   .special "cmd"]

/-- `modifier_order` (recorder.py lines 164 and 221). -/
def modifier_order : List String := ["ctrl", "shift", "alt", "cmd"]

/-- Embedding of `HotkeyRecorder._format_keys_for_display` (recorder.py
lines 155-174): modifiers first in the fixed order, then the remaining
keys sorted; title-cased and joined by `" + "`. -/
def format_keys_for_display (all_pressed_keys : List String) : String :=
  if all_pressed_keys.isEmpty then ""
  else
    let modifiers := modifier_order.filter fun m => m ∈ all_pressed_keys
    let keys := all_pressed_keys.filter fun k => k ∉ modifier_order
    let all_keys := modifiers ++ pySorted keys
    String.intercalate " + " (all_keys.map pyTitle)

/-- Embedding of `HotkeyRecorder._generate_hotkey_string` (recorder.py
lines 215-234): modifiers first in the fixed order wrapped in angle
brackets, then the remaining keys — wrapped when longer than one character
— sorted AFTER wrapping; joined by `"+"`. -/
def generate_hotkey_string (all_pressed_keys : List String) : String :=
  let modifiers := (modifier_order.filter fun m => m ∈ all_pressed_keys).map
    fun m => "<" ++ m ++ ">"
  let keys := (all_pressed_keys.filter fun k => k ∉ modifier_order).map
    fun k => if 1 < k.data.length then "<" ++ k ++ ">" else k
  String.intercalate "+" (modifiers ++ pySorted keys)

/-- Python `set.add` on a duplicate-free list model. -/
def pySetAdd (s : List String) (x : String) : List String :=
  if x ∈ s then s else s ++ [x]

/-- Python `set.discard` on a duplicate-free list model. -/
def pySetDiscard (s : List String) (x : String) : List String := s.erase x

/-- The recorder's session state (`HotkeyRecorder.__init__`): the recording
flag and the three key sets, plus whether the caller supplied each
callback. -/
structure RecorderState where
  recording : Bool
  pressed_keys : List String
  released_keys : List String
  all_pressed_keys : List String
  hasUpdateCb : Bool
  hasFinishCb : Bool
deriving DecidableEq

/-- A callback invocation the recorder makes on its caller. -/
inductive CallbackCall where
  | update (displayText : String)
  | finish (hotkeyStr : Option String) (error : Option TransMsg)
deriving DecidableEq

/-- Is this callback invocation an `onFinish`. -/
def CallbackCall.isFinish : CallbackCall → Bool
  | .finish _ _ => true
  | .update _ => false

/-- Is this callback invocation an `onUpdate`. -/
def CallbackCall.isUpdate : CallbackCall → Bool
  | .update _ => true
  | .finish _ _ => false

/-- Embedding of `HotkeyRecorder.stop_recording` (recorder.py lines 53-67):
clears the recording flag and all session sets (listener teardown is
external). -/
def stop_recording (st : RecorderState) : RecorderState :=
  { st with recording := false, pressed_keys := [], released_keys := [], all_pressed_keys := [] }

/-- Embedding of `HotkeyRecorder._validate_hotkey` (recorder.py lines
201-213): validates `all_pressed_keys` with `detailed=True`, passing the
display string with `" + "` collapsed to `"+"` as `hotkey_repr`. -/
def validate_hotkey (st : RecorderState) : Option TransMsg :=
  validate_hotkey_keys st.all_pressed_keys
    (pyReplace (format_keys_for_display st.all_pressed_keys) " + " "+") true

/-- Embedding of `HotkeyRecorder._finish_recording` (recorder.py lines
176-199): with no keys ever pressed, stop and report `no_key_detected`;
otherwise validate, build the hotkey string on success, stop, and invoke
`onFinish` once (when the caller supplied it). -/
def finish_recording (st : RecorderState) : RecorderState × List CallbackCall :=
  if st.all_pressed_keys.isEmpty then
    (stop_recording st,
     if st.hasFinishCb then [.finish none (some .no_key_detected)] else [])
  else
    let error := validate_hotkey st
    let hotkey_str : Option String :=
      match error with
      | some _ => none
      | none => some (generate_hotkey_string st.all_pressed_keys)
    (stop_recording st,
     if st.hasFinishCb then [.finish hotkey_str error] else [])

/-- Embedding of `HotkeyRecorder._notify_update` (recorder.py lines
146-153): fires `onUpdate` when the callback is present and
`all_pressed_keys` is non-empty. -/
def notify_update (st : RecorderState) : List CallbackCall :=
  if st.hasUpdateCb && !st.all_pressed_keys.isEmpty then
    [.update (format_keys_for_display st.all_pressed_keys)]
  else []

/-- Embedding of `HotkeyRecorder._on_key_press` (recorder.py lines 69-81):
ignore events when not recording or when normalization yields nothing;
otherwise add the token to the pressed and ever-pressed sets and notify. -/
def on_key_press (st : RecorderState) (key : PyKey) : RecorderState × List CallbackCall :=
  if !st.recording then (st, [])
  else
    match get_key_name key with
    | none => (st, [])
    | some key_name =>
      let st' := { st with
        pressed_keys := pySetAdd st.pressed_keys key_name,
        all_pressed_keys := pySetAdd st.all_pressed_keys key_name }
      (st', notify_update st')

/-- Embedding of `HotkeyRecorder._on_key_release` (recorder.py lines
83-102): ignore events when not recording or when normalization yields
nothing; otherwise move the token from pressed to released, and finish the
session exactly when the ever-pressed set is non-empty and equals the
released set. -/
def on_key_release (st : RecorderState) (key : PyKey) : RecorderState × List CallbackCall :=
  if !st.recording then (st, [])
  else
    match get_key_name key with
    | none => (st, [])
    | some key_name =>
      let st' := { st with
        released_keys := pySetAdd st.released_keys key_name,
        pressed_keys := pySetDiscard st.pressed_keys key_name }
      if !st'.all_pressed_keys.isEmpty && pySetEq st'.all_pressed_keys st'.released_keys then
        finish_recording st'
      else (st', [])

/-- One key event delivered by the listener. -/
inductive KeyEvent where
  | press (k : PyKey)
  | release (k : PyKey)
deriving DecidableEq

/-- Dispatch one key event to the recorder. -/
def procEvent (st : RecorderState) : KeyEvent → RecorderState × List CallbackCall
  | .press k => on_key_press st k
  | .release k => on_key_release st k

/-- Run a sequence of key events, collecting every callback invocation in
order. -/
def procEvents (st : RecorderState) : List KeyEvent → RecorderState × List CallbackCall
  | [] => (st, [])
  | e :: es =>
    let r1 := procEvent st e
    let r2 := procEvents r1.1 es
    (r2.1, r1.2 ++ r2.2)

/-- The state `start_recording` establishes (recorder.py lines 23-51):
recording, all session sets cleared, callbacks as supplied. -/
def startState (upd fin : Bool) : RecorderState :=
  { recording := true, pressed_keys := [], released_keys := [], all_pressed_keys := [],
    hasUpdateCb := upd, hasFinishCb := fin }

/-! ## Auxiliary definitions used by the theorems -/

/-- All ways of inserting `x` into a list. -/
def insertEverywhere {α : Type} (x : α) : List α → List (List α)
  | [] => [[x]]
  | y :: ys => (x :: y :: ys) :: (insertEverywhere x ys).map fun l => y :: l

/-- All permutations of a list, by structural recursion (so that the kernel
can evaluate it on concrete inputs). -/
def allPerms {α : Type} : List α → List (List α)
  | [] => [[]]
  | x :: xs => (allPerms xs).flatMap (insertEverywhere x)

/-- Every `onFinish` invocation in the trace is its last element (hence
also: at most one `onFinish` per trace). -/
def terminalFinish : List CallbackCall → Bool
  | [] => true
  | c :: rest => if c.isFinish then rest.isEmpty else terminalFinish rest

/-- Non-strict code-point order on strings (the order in which Python
`sorted` arranges its output). -/
def strLeP (a b : String) : Prop := pyStrLt b a = false

/-- The wrapping `_generate_hotkey_string` applies to a modifier token. -/
def wrapModifier (m : String) : String := "<" ++ m ++ ">"

/-- The wrapping `_generate_hotkey_string` applies to a non-modifier token:
angle brackets exactly when the token has more than one character. -/
def wrapNonModifier (k : String) : String :=
  if 1 < k.data.length then "<" ++ k ++ ">" else k

/-- The press events of the `{ctrl, alt, a}` chord (claim C3). -/
def chordPresses : List KeyEvent :=
  [.press (.special "ctrl"), .press (.special "alt"), .press (.keycode (some 65) (some 'a'))]

/-- The release events of the `{ctrl, alt, a}` chord (claim C3). -/
def chordReleases : List KeyEvent :=
  [.release (.special "ctrl"), .release (.special "alt"),
   .release (.keycode (some 65) (some 'a'))]

/-- A concrete CF_HTML container with `StartFragment=10`, `EndFragment=20`
and more than 20 bytes of content (claim C4's example). -/
def c4Example : List Nat :=
  "StartFragment:10\nEndFragment:20\npayload here".data.map Char.toNat

/-! ## Helper lemmas about the Python primitive models -/

/-- Valid scalar values below the surrogate range round-trip through
`Char.ofNat`. -/
theorem charOfNat_toNat (n : Nat) (h : n < 55296) : (Char.ofNat n).toNat = n := by
  have hv : n.isValidChar := Or.inl h
  simp only [Char.ofNat, hv, dite_true, Char.ofNatAux, Char.toNat]
  rfl

/-- `Char.toLower` leaves a character that is not an ASCII capital
unchanged. -/
theorem charToLower_fixed (c : Char) (h : ¬(65 ≤ c.toNat ∧ c.toNat ≤ 90)) :
    c.toLower = c := by
  unfold Char.toLower
  rw [if_neg]
  omega

/-- ASCII lowering is idempotent on characters. -/
theorem charToLower_idem (c : Char) : c.toLower.toLower = c.toLower := by
  by_cases h : 65 ≤ c.toNat ∧ c.toNat ≤ 90
  · have h1 : c.toLower = Char.ofNat (c.toNat + 32) := by
      unfold Char.toLower
      rw [if_pos]
      omega
    have h2 : (Char.ofNat (c.toNat + 32)).toNat = c.toNat + 32 :=
      charOfNat_toNat _ (by omega)
    rw [h1]
    exact charToLower_fixed _ (by omega)
  · rw [charToLower_fixed c h, charToLower_fixed c h]

/-- `pyLower` is idempotent. -/
theorem pyLower_idem (s : String) : pyLower (pyLower s) = pyLower s := by
  unfold pyLower
  simp [List.map_map, Function.comp_def, charToLower_idem]

/-- `pyLower` fixes strings all of whose characters lowering fixes. -/
theorem pyLower_fixed (s : String) (h : ∀ c ∈ s.data, c.toLower = c) :
    pyLower s = s := by
  unfold pyLower
  cases s with
  | mk data =>
    congr 1
    induction data with
    | nil => rfl
    | cons c cs ih =>
      simp only [List.map_cons, List.cons.injEq]
      exact ⟨h c (by simp), ih fun x hx => h x (by simp [hx])⟩

/-- A decimal digit character is not Python whitespace. -/
theorem isPySpace_digit (c : Char) (h : c.isDigit = true) : isPySpace c = false := by
  have hd : 48 ≤ c.toNat ∧ c.toNat ≤ 57 := by
    unfold Char.isDigit at h
    constructor
    · exact (decide_eq_true_iff.mp (Bool.and_elim_left h))
    · exact (decide_eq_true_iff.mp (Bool.and_elim_right h))
  unfold isPySpace
  rw [decide_eq_false_iff_not]
  simp only [List.mem_cons, List.not_mem_nil, or_false]
  omega

/-- `stripList` leaves a list untouched when no element satisfies the
predicate. -/
theorem stripList_eq_self {α : Type} (p : α → Bool) (l : List α)
    (h : ∀ x ∈ l, p x = false) : stripList p l = l := by
  unfold stripList
  have h1 : l.dropWhile p = l := by
    cases l with
    | nil => rfl
    | cons a as =>
      rw [List.dropWhile_cons_of_neg]
      simp [h a (by simp)]
  rw [h1]
  have h2 : l.reverse.dropWhile p = l.reverse := by
    cases hr : l.reverse with
    | nil => rfl
    | cons a as =>
      rw [List.dropWhile_cons_of_neg]
      have : a ∈ l := by
        have : a ∈ l.reverse := by rw [hr]; simp
        simpa using this
      simp [h a this]
  rw [h2, List.reverse_reverse]

/-- `pyIntRest` accepts any all-digit list. -/
theorem pyIntRest_digits (l : List Char) (h : ∀ c ∈ l, c.isDigit = true) :
    pyIntRest l = true := by
  induction l with
  | nil => rfl
  | cons c rest ih =>
    have hc : c.isDigit = true := h c (by simp)
    have hne : c ≠ '_' := by
      intro he
      rw [he] at hc
      exact absurd hc (by decide)
    unfold pyIntRest
    rw [if_neg hne, hc, ih fun x hx => h x (by simp [hx])]
    rfl

/-- `pyInt` on a non-empty all-digit string returns its numeric value. -/
theorem pyInt_digits (s : String) (hne : s.data ≠ [])
    (hd : ∀ c ∈ s.data, c.isDigit = true) :
    pyInt s = some ((natOfDigits s.data : Int)) := by
  unfold pyInt
  have hstrip : stripList isPySpace s.data = s.data :=
    stripList_eq_self _ _ fun x hx => isPySpace_digit x (hd x hx)
  rw [hstrip]
  cases hsd : s.data with
  | nil => exact absurd hsd hne
  | cons c rest =>
    have hc : c.isDigit = true := hd c (by rw [hsd]; simp)
    have hplus : c ≠ '+' := by
      intro he; rw [he] at hc; exact absurd hc (by decide)
    have hminus : c ≠ '-' := by
      intro he; rw [he] at hc; exact absurd hc (by decide)
    simp only [if_neg hplus, if_neg hminus]
    have hok : pyIntDigitsOk (c :: rest) = true := by
      show (c.isDigit && pyIntRest rest) = true
      rw [hc, pyIntRest_digits rest fun x hx => hd x (by rw [hsd]; simp [hx])]
      rfl
    rw [if_pos hok]
    have hfilter : (c :: rest).filter Char.isDigit = c :: rest :=
      List.filter_eq_self.mpr fun x hx => hd x (by rw [hsd]; exact hx)
    rw [hfilter]

/-- `pyDigitChar` produces digit characters. -/
theorem pyDigitChar_isDigit (n : Nat) (h : n < 10) : (pyDigitChar n).isDigit = true := by
  interval_cases n <;> decide

/-- Numeric value of a digit character. -/
theorem pyDigitChar_toNat (n : Nat) (h : n < 10) : (pyDigitChar n).toNat = 48 + n :=
  charOfNat_toNat _ (by omega)

/-- Every character `natReprAux` emits is a digit. -/
theorem natReprAux_digits : ∀ (fuel n : Nat), n < fuel →
    ∀ c ∈ natReprAux fuel n, c.isDigit = true := by
  intro fuel
  induction fuel with
  | zero => intro n h; omega
  | succ f ih =>
    intro n h c hc
    unfold natReprAux at hc
    by_cases h10 : n < 10
    · rw [if_pos h10] at hc
      simp only [List.mem_singleton] at hc
      rw [hc]
      exact pyDigitChar_isDigit n h10
    · rw [if_neg h10] at hc
      rcases List.mem_append.mp hc with h1 | h2
      · exact ih (n / 10) (by omega) c h1
      · simp only [List.mem_singleton] at h2
        rw [h2]
        exact pyDigitChar_isDigit _ (Nat.mod_lt n (by omega))

/-- `natReprAux` never returns the empty list (with fuel to spare). -/
theorem natReprAux_ne_nil (fuel n : Nat) (h : n < fuel) : natReprAux fuel n ≠ [] := by
  cases fuel with
  | zero => omega
  | succ f =>
    unfold natReprAux
    by_cases h10 : n < 10
    · rw [if_pos h10]; simp
    · rw [if_neg h10]; simp

/-- `natOfDigits` over an appended digit. -/
theorem natOfDigits_append_digit (l : List Char) (c : Char) :
    natOfDigits (l ++ [c]) = 10 * natOfDigits l + (c.toNat - 48) := by
  unfold natOfDigits
  rw [List.foldl_append]
  rfl

/-- Value round trip of `natReprAux`. -/
theorem natOfDigits_natReprAux : ∀ (fuel n : Nat), n < fuel →
    natOfDigits (natReprAux fuel n) = n := by
  intro fuel
  induction fuel with
  | zero => intro n h; omega
  | succ f ih =>
    intro n h
    unfold natReprAux
    by_cases h10 : n < 10
    · rw [if_pos h10]
      show natOfDigits ([] ++ [pyDigitChar n]) = n
      rw [natOfDigits_append_digit, pyDigitChar_toNat n h10]
      unfold natOfDigits
      simp
    · rw [if_neg h10]
      rw [natOfDigits_append_digit, ih (n / 10) (by omega),
          pyDigitChar_toNat _ (Nat.mod_lt n (by omega))]
      omega

/-- `str(n)` passes `isdigit`. -/
theorem pyIsDigit_natRepr (n : Nat) : pyIsDigit (natRepr n) = true := by
  unfold pyIsDigit natRepr
  have hne := natReprAux_ne_nil (n + 1) n (by omega)
  have hd := natReprAux_digits (n + 1) n (by omega)
  rw [List.all_eq_true.mpr hd]
  cases hr : natReprAux (n + 1) n with
  | nil => exact absurd hr hne
  | cons a as => rfl

/-- The value of `int(str(n))` is `n` again. -/
theorem pyInt_natRepr (n : Nat) : pyInt (natRepr n) = some ((n : Int)) := by
  have h1 := pyInt_digits (natRepr n) (natReprAux_ne_nil (n + 1) n (by omega))
    (natReprAux_digits (n + 1) n (by omega))
  have hdata : (natRepr n).data = natReprAux (n + 1) n := rfl
  rw [h1, hdata, natOfDigits_natReprAux (n + 1) n (by omega)]

/-- A Python slice at non-negative in-range offsets is drop-then-take. -/
theorem pySlice_nat {α : Type} (l : List α) (s e : Nat) (he : e ≤ l.length) :
    pySlice l (s : Int) (e : Int) = (l.drop s).take (e - s) := by
  unfold pySlice pySliceIdx
  have hs : ¬((s : Int) < 0) := by omega
  have heI : ¬((e : Int) < 0) := by omega
  rw [if_neg hs, if_neg heI]
  have hts : ((s : Int)).toNat = s := by omega
  have hte : ((e : Int)).toNat = e := by omega
  rw [hts, hte, Nat.min_eq_left he]
  by_cases hsn : s ≤ l.length
  · rw [Nat.min_eq_left hsn, List.drop_take]
  · rw [Nat.min_eq_right (by omega)]
    have h1 : (l.take e).drop l.length = [] := List.drop_eq_nil_of_le (by simp)
    rw [h1]
    have h2 : e - s = 0 := by omega
    rw [h2, List.take_zero]

/-- `isdigit` in terms of the spec's "non-empty and numeric". -/
theorem pyIsDigit_iff (s : String) :
    pyIsDigit s = true ↔ (s.data ≠ [] ∧ s.data.all Char.isDigit = true) := by
  unfold pyIsDigit
  rw [Bool.and_eq_true]
  constructor
  · rintro ⟨h1, h2⟩
    refine ⟨?_, h2⟩
    simpa [List.isEmpty_iff] using h1
  · rintro ⟨h1, h2⟩
    refine ⟨?_, h2⟩
    simpa [List.isEmpty_iff] using h1

/-! ## Tier bridging lemmas for the byte extractor -/

/-- The first tier of the byte extractor agrees with the spec's offsets tier. -/
theorem tier1_bridge (b : List Nat) :
    (if pyIsDigit (metaGetD (collectMetaBytes (bytesSplitlines b)) "StartFragment" "") &&
        pyIsDigit (metaGetD (collectMetaBytes (bytesSplitlines b)) "EndFragment" "") then
      match pyInt (metaGetD (collectMetaBytes (bytesSplitlines b)) "StartFragment" ""),
            pyInt (metaGetD (collectMetaBytes (bytesSplitlines b)) "EndFragment" "") with
      | some start_fragment, some end_fragment =>
        if 0 ≤ start_fragment ∧ start_fragment ≤ end_fragment ∧
            end_fragment ≤ (b.length : Int) then
          some (utf8Str (pySlice b start_fragment end_fragment))
        else none
      | _, _ => none
    else none) = specOffsetsTier b := by
  unfold specOffsetsTier metaGetD
  cases hsf : metaFind (collectMetaBytes (bytesSplitlines b)) "StartFragment" with
  | none => simp [pyIsDigit]
  | some sfv =>
    cases hef : metaFind (collectMetaBytes (bytesSplitlines b)) "EndFragment" with
    | none => simp [pyIsDigit]
    | some efv =>
      simp only [Option.getD_some]
      by_cases hd1 : pyIsDigit sfv = true
      · by_cases hd2 : pyIsDigit efv = true
        · obtain ⟨hne1, hall1⟩ := (pyIsDigit_iff sfv).mp hd1
          obtain ⟨hne2, hall2⟩ := (pyIsDigit_iff efv).mp hd2
          rw [hd1, hd2]
          simp only [Bool.and_self, if_true]
          rw [pyInt_digits sfv hne1 (List.all_eq_true.mp hall1),
              pyInt_digits efv hne2 (List.all_eq_true.mp hall2)]
          simp only []
          have hiff : (0 ≤ ((natOfDigits sfv.data : Int)) ∧
              ((natOfDigits sfv.data : Int)) ≤ ((natOfDigits efv.data : Int)) ∧
              ((natOfDigits efv.data : Int)) ≤ (b.length : Int)) ↔
              (natOfDigits sfv.data ≤ natOfDigits efv.data ∧
               natOfDigits efv.data ≤ b.length) := by omega
          simp only [hiff]
          have hdig : sfv.data ≠ [] ∧ (∀ c ∈ sfv.data, c.isDigit = true) ∧
              efv.data ≠ [] ∧ (∀ c ∈ efv.data, c.isDigit = true) :=
            ⟨hne1, List.all_eq_true.mp hall1, hne2, List.all_eq_true.mp hall2⟩
          by_cases hr : natOfDigits sfv.data ≤ natOfDigits efv.data ∧
              natOfDigits efv.data ≤ b.length
          · rw [if_pos hr, if_pos hdig, if_pos hr, pySlice_nat b _ _ hr.2]
          · rw [if_neg hr, if_pos hdig, if_neg hr]
        · have hfd2 : pyIsDigit efv = false := by
            cases hb : pyIsDigit efv with
            | false => rfl
            | true => exact absurd hb hd2
          rw [hfd2]
          simp only [Bool.and_false, Bool.false_eq_true, if_false]
          rw [if_neg fun hcond => hd2 ((pyIsDigit_iff efv).mpr
            ⟨hcond.2.2.1, List.all_eq_true.mpr hcond.2.2.2⟩)]
      · have hfd1 : pyIsDigit sfv = false := by
          cases hb : pyIsDigit sfv with
          | false => rfl
          | true => exact absurd hb hd1
        rw [hfd1]
        simp only [Bool.false_and, Bool.false_eq_true, if_false]
        rw [if_neg fun hcond => hd1 ((pyIsDigit_iff sfv).mpr
          ⟨hcond.1, List.all_eq_true.mpr hcond.2.1⟩)]


/-- The third tier of the byte extractor agrees with the spec's
StartHTML/EndHTML range tier (with final fallback to the full input). -/
theorem tier3_bridge (b : List Nat) :
    (if 0 ≤ (if pyIsDigit (metaGetD (collectMetaBytes (bytesSplitlines b)) "StartHTML" "0") then
          (pyInt (metaGetD (collectMetaBytes (bytesSplitlines b)) "StartHTML" "0")).getD 0
        else 0) ∧
        (if pyIsDigit (metaGetD (collectMetaBytes (bytesSplitlines b)) "StartHTML" "0") then
          (pyInt (metaGetD (collectMetaBytes (bytesSplitlines b)) "StartHTML" "0")).getD 0
        else 0) ≤
        (if pyIsDigit (metaGetD (collectMetaBytes (bytesSplitlines b)) "EndHTML" (natRepr b.length)) then
          (pyInt (metaGetD (collectMetaBytes (bytesSplitlines b)) "EndHTML" (natRepr b.length))).getD b.length
        else (b.length : Int)) ∧
        (if pyIsDigit (metaGetD (collectMetaBytes (bytesSplitlines b)) "EndHTML" (natRepr b.length)) then
          (pyInt (metaGetD (collectMetaBytes (bytesSplitlines b)) "EndHTML" (natRepr b.length))).getD b.length
        else (b.length : Int)) ≤ (b.length : Int) then
      utf8Str (pySlice b
        (if pyIsDigit (metaGetD (collectMetaBytes (bytesSplitlines b)) "StartHTML" "0") then
          (pyInt (metaGetD (collectMetaBytes (bytesSplitlines b)) "StartHTML" "0")).getD 0
        else 0)
        (if pyIsDigit (metaGetD (collectMetaBytes (bytesSplitlines b)) "EndHTML" (natRepr b.length)) then
          (pyInt (metaGetD (collectMetaBytes (bytesSplitlines b)) "EndHTML" (natRepr b.length))).getD b.length
        else (b.length : Int)))
    else utf8Str b) = (specHtmlRangeTier b).getD (utf8Str b) := by
  unfold specHtmlRangeTier metaGetD
  have hstart :
      (if pyIsDigit ((metaFind (collectMetaBytes (bytesSplitlines b)) "StartHTML").getD "0") then
        (pyInt ((metaFind (collectMetaBytes (bytesSplitlines b)) "StartHTML").getD "0")).getD 0
      else 0) =
      ((match metaFind (collectMetaBytes (bytesSplitlines b)) "StartHTML" with
        | some v =>
          if v.data ≠ [] ∧ (∀ c ∈ v.data, c.isDigit = true) then natOfDigits v.data else 0
        | none => 0 : Nat) : Int) := by
    cases hsh : metaFind (collectMetaBytes (bytesSplitlines b)) "StartHTML" with
    | none =>
      simp only [Option.getD_none]
      rw [if_pos (show pyIsDigit "0" = true by decide),
          (show pyInt "0" = some 0 by decide)]
      rfl
    | some v =>
      simp only [Option.getD_some]
      by_cases hd : pyIsDigit v = true
      · obtain ⟨hne, hall⟩ := (pyIsDigit_iff v).mp hd
        rw [if_pos hd, pyInt_digits v hne (List.all_eq_true.mp hall),
          if_pos ⟨hne, List.all_eq_true.mp hall⟩]
        rfl
      · rw [if_neg hd, if_neg (fun hcond => hd ((pyIsDigit_iff v).mpr
          ⟨hcond.1, List.all_eq_true.mpr hcond.2⟩))]
        rfl
  have hstop :
      (if pyIsDigit ((metaFind (collectMetaBytes (bytesSplitlines b)) "EndHTML").getD (natRepr b.length)) then
        (pyInt ((metaFind (collectMetaBytes (bytesSplitlines b)) "EndHTML").getD (natRepr b.length))).getD b.length
      else (b.length : Int)) =
      ((match metaFind (collectMetaBytes (bytesSplitlines b)) "EndHTML" with
        | some v =>
          if v.data ≠ [] ∧ (∀ c ∈ v.data, c.isDigit = true) then natOfDigits v.data else b.length
        | none => b.length : Nat) : Int) := by
    cases heh : metaFind (collectMetaBytes (bytesSplitlines b)) "EndHTML" with
    | none =>
      simp only [Option.getD_none]
      rw [if_pos (pyIsDigit_natRepr b.length), pyInt_natRepr b.length]
      rfl
    | some v =>
      simp only [Option.getD_some]
      by_cases hd : pyIsDigit v = true
      · obtain ⟨hne, hall⟩ := (pyIsDigit_iff v).mp hd
        rw [if_pos hd, pyInt_digits v hne (List.all_eq_true.mp hall),
          if_pos ⟨hne, List.all_eq_true.mp hall⟩]
        rfl
      · rw [if_neg hd, if_neg (fun hcond => hd ((pyIsDigit_iff v).mpr
          ⟨hcond.1, List.all_eq_true.mpr hcond.2⟩))]
  rw [hstart, hstop]
  set sN : Nat := (match metaFind (collectMetaBytes (bytesSplitlines b)) "StartHTML" with
    | some v => if v.data ≠ [] ∧ (∀ c ∈ v.data, c.isDigit = true) then natOfDigits v.data else 0
    | none => 0) with hsN
  set eN : Nat := (match metaFind (collectMetaBytes (bytesSplitlines b)) "EndHTML" with
    | some v =>
      if v.data ≠ [] ∧ (∀ c ∈ v.data, c.isDigit = true) then natOfDigits v.data else b.length
    | none => b.length) with heN
  have hiff : (0 ≤ (sN : Int) ∧ (sN : Int) ≤ (eN : Int) ∧ (eN : Int) ≤ (b.length : Int)) ↔
      (sN ≤ eN ∧ eN ≤ b.length) := by omega
  simp only [hiff]
  by_cases hr : sN ≤ eN ∧ eN ≤ b.length
  · rw [if_pos hr, if_pos hr, pySlice_nat b _ _ hr.2, Option.getD_some]
  · rw [if_neg hr, if_neg hr, Option.getD_none]


/-- The byte extractor equals the spec's first-success-wins tier
composition. -/
theorem extract_bytes_eq_spec (b : List Nat) :
    extract_html_fragment_bytes b = cfHtmlExtractSpec b := by
  unfold extract_html_fragment_bytes cfHtmlExtractSpec firstWins specAnchorsTier
  dsimp only
  rw [tier1_bridge b]
  cases hT1 : specOffsetsTier b with
  | some r => rfl
  | none =>
    dsimp only
    cases hA : regexFragmentSearch startFragmentMarker endFragmentMarker b with
    | some g => rfl
    | none =>
      dsimp only
      rw [tier3_bridge b]
      cases hT3 : specHtmlRangeTier b <;> simp [firstWins]

/-! ## Claim theorems -/

/-- C1: the spec claims both CF_HTML extraction variants never raise and
always return some string.  The code violates this: in the text variant,
`int(meta.get("StartHTML", "0"))` sits outside any `try` block, so a
present but non-numeric `StartHTML` header raises `ValueError` instead of
degrading to the full envelope text.  The same input through the bytes
variant does degrade to the full envelope, as the spec describes. -/
theorem extract_fragment_text_raises_on_nonnumeric_startHTML :
    extract_html_fragment "StartHTML:x\n<p>hi</p>" = Except.error PyExc.valueError ∧
    extract_html_fragment_bytes ("StartHTML:x\n<p>hi</p>".data.map Char.toNat) =
      "StartHTML:x\n<p>hi</p>" := by
  constructor
  · rfl
  · decide

/-- C4: byte-oriented CF_HTML extraction follows exactly the four spec
tiers in order of precedence — (1) valid `StartFragment`/`EndFragment`
offsets, (2) comment anchors, (3) `StartHTML`/`EndHTML` offsets with
defaults `0` and the full length, (4) the entire input decoded — and on a
container with valid `StartFragment=10, EndFragment=20` it returns exactly
`bytes[10:20]` decoded. -/
theorem extract_bytes_matches_spec_tiers :
    (∀ b : List Nat, extract_html_fragment_bytes b = cfHtmlExtractSpec b) ∧
    extract_html_fragment_bytes c4Example = utf8Str (pySlice c4Example 10 20) := by
  constructor
  · exact extract_bytes_eq_spec
  · decide

/-- C5: when recording finishes with no keys ever pressed, the recorder
stops the session and invokes `onFinish` with no combination and the
"no key detected" error. -/
theorem finish_recording_no_keys (st : RecorderState)
    (h1 : st.all_pressed_keys = []) (h2 : st.hasFinishCb = true) :
    finish_recording st =
      (stop_recording st, [.finish none (some .no_key_detected)]) := by
  unfold finish_recording
  rw [h1]
  simp [h2]

/-- Witness for C5 at the freshly started state. -/
theorem finish_recording_no_keys_witness :
    finish_recording (startState true true) =
      (stop_recording (startState true true),
       [.finish none (some .no_key_detected)]) :=
  finish_recording_no_keys (startState true true) rfl rfl

/-- C2 counterexample: the token set `{shift}` alone yields the
"no normal key" error (rule 2), not the "shift only" error the claim
asserts — the shift-only rule can only fire when a normal key is present. -/
theorem validate_shift_alone_is_no_normal_key :
    validate_hotkey_keys ["shift"] "" true = some TransMsg.no_normal_key ∧
    validate_hotkey_keys ["shift"] "" true ≠ some TransMsg.shift_only_long ∧
    validate_hotkey_keys ["shift"] "" true ≠ some TransMsg.shift_only_short := by
  decide


/-- C2 (amended): the validator applies its rules in the fixed order —
no-modifier, then no-normal-key, then shift-as-only-modifier, then the
reserved table — returning the first failing rule's error; `{shift}` alone
therefore yields the "no normal key" error, `{ctrl}` alone "no normal
key", `{a}` alone "no modifier", and `{ctrl, c}` the reserved error naming
ctrl+c. -/
theorem validate_rule_order :
    (∀ keys r d, (∀ k ∈ keys, k ∉ MODIFIER_KEYS) →
        validate_hotkey_keys keys r d = some .no_modifier) ∧
    (∀ keys r d, (∃ k ∈ keys, k ∈ MODIFIER_KEYS) → (∀ k ∈ keys, k ∈ MODIFIER_KEYS) →
        validate_hotkey_keys keys r d = some .no_normal_key) ∧
    (∀ keys r, (∃ k ∈ keys, k ∈ MODIFIER_KEYS) → (∃ k ∈ keys, k ∉ MODIFIER_KEYS) →
        pySetEq (keys.filter fun k => k ∈ MODIFIER_KEYS) ["shift"] = true →
        validate_hotkey_keys keys r true = some .shift_only_long) ∧
    (∀ keys r, (∃ k ∈ keys, k ∈ MODIFIER_KEYS) → (∃ k ∈ keys, k ∉ MODIFIER_KEYS) →
        pySetEq (keys.filter fun k => k ∈ MODIFIER_KEYS) ["shift"] = false →
        (∃ cd ∈ SYSTEM_HOTKEY_DESCRIPTIONS, pySetEq keys cd.1 = true) →
        ∃ cd ∈ SYSTEM_HOTKEY_DESCRIPTIONS, pySetEq keys cd.1 = true ∧
          validate_hotkey_keys keys r true = some (.system_reserved_long cd.2)) ∧
    validate_hotkey_keys ["shift"] "" true = some .no_normal_key ∧
    validate_hotkey_keys ["ctrl"] "" true = some .no_normal_key ∧
    validate_hotkey_keys ["a"] "" true = some .no_modifier ∧
    validate_hotkey_keys ["ctrl", "c"] "" true =
      some (.system_reserved_long "hotkey.recorder.system.ctrl_c") := by
  refine ⟨?_, ?_, ?_, ?_, by decide, by decide, by decide, by decide⟩
  · intro keys r d h
    unfold validate_hotkey_keys
    have hmod : keys.any (fun k => decide (k ∈ MODIFIER_KEYS)) = false := by
      rw [List.any_eq_false]
      intro k hk
      simpa using h k hk
    rw [hmod]
    rfl
  · intro keys r d hex hall
    unfold validate_hotkey_keys
    have hmod : keys.any (fun k => decide (k ∈ MODIFIER_KEYS)) = true := by
      rw [List.any_eq_true]
      obtain ⟨k, hk, hm⟩ := hex
      exact ⟨k, hk, by simpa using hm⟩
    have hnorm : keys.any (fun k => decide (k ∉ MODIFIER_KEYS)) = false := by
      rw [List.any_eq_false]
      intro k hk
      simpa using hall k hk
    rw [hmod, hnorm]
    rfl
  · intro keys r hex hnx hshift
    unfold validate_hotkey_keys
    have hmod : keys.any (fun k => decide (k ∈ MODIFIER_KEYS)) = true := by
      rw [List.any_eq_true]
      obtain ⟨k, hk, hm⟩ := hex
      exact ⟨k, hk, by simpa using hm⟩
    have hnorm : keys.any (fun k => decide (k ∉ MODIFIER_KEYS)) = true := by
      rw [List.any_eq_true]
      obtain ⟨k, hk, hm⟩ := hnx
      exact ⟨k, hk, by simpa using hm⟩
    rw [hmod, hnorm]
    simp only [Bool.not_true, Bool.false_eq_true, if_false]
    rw [hshift]
    rfl
  · intro keys r hex hnx hshift hmatch
    unfold validate_hotkey_keys
    have hmod : keys.any (fun k => decide (k ∈ MODIFIER_KEYS)) = true := by
      rw [List.any_eq_true]
      obtain ⟨k, hk, hm⟩ := hex
      exact ⟨k, hk, by simpa using hm⟩
    have hnorm : keys.any (fun k => decide (k ∉ MODIFIER_KEYS)) = true := by
      rw [List.any_eq_true]
      obtain ⟨k, hk, hm⟩ := hnx
      exact ⟨k, hk, by simpa using hm⟩
    rw [hmod, hnorm]
    simp only [Bool.not_true, Bool.false_eq_true, if_false]
    rw [hshift]
    simp only [Bool.false_eq_true, if_false]
    obtain ⟨cd0, hcd0, hset0⟩ := hmatch
    have hsome : (SYSTEM_HOTKEY_DESCRIPTIONS.find? fun cd => pySetEq keys cd.1).isSome := by
      rw [List.find?_isSome]
      exact ⟨cd0, hcd0, hset0⟩
    cases hfind : SYSTEM_HOTKEY_DESCRIPTIONS.find? fun cd => pySetEq keys cd.1 with
    | none => rw [hfind] at hsome; simp at hsome
    | some cd =>
      have hp : pySetEq keys cd.1 = true := by
        have hq := List.find?_some hfind
        simpa using hq
      refine ⟨cd, List.mem_of_find?_eq_some hfind, hp, ?_⟩
      simp

/-- Witness for C2's amended theorem: each universally quantified rule
applied at a concrete token set. -/
theorem validate_rule_order_witness :
    validate_hotkey_keys ["a"] "" true = some .no_modifier ∧
    validate_hotkey_keys ["ctrl"] "" true = some .no_normal_key ∧
    validate_hotkey_keys ["shift", "x"] "" true = some .shift_only_long ∧
    ∃ cd ∈ SYSTEM_HOTKEY_DESCRIPTIONS, pySetEq ["c", "ctrl"] cd.1 = true ∧
      validate_hotkey_keys ["c", "ctrl"] "" true = some (.system_reserved_long cd.2) :=
  ⟨validate_rule_order.1 ["a"] "" true (by decide),
   validate_rule_order.2.1 ["ctrl"] "" true ⟨"ctrl", by decide, by decide⟩ (by decide),
   validate_rule_order.2.2.1 ["shift", "x"] ""
     ⟨"shift", by decide, by decide⟩ ⟨"x", by decide, by decide⟩ (by decide),
   validate_rule_order.2.2.2.1 ["c", "ctrl"] ""
     ⟨"ctrl", by decide, by decide⟩ ⟨"c", by decide, by decide⟩ (by decide)
     ⟨(["ctrl", "c"], "hotkey.recorder.system.ctrl_c"), by decide, by decide⟩⟩


/-- A non-deciding attempt (any exception, a skipped or failed read) only
moves the loop to the next attempt. -/
theorem loop_skip_nonDeciding (a : PollAttempt) (rest : List PollAttempt)
    (h : a.nonDeciding = true) :
    tryReadCfHtmlLoop (a :: rest) = tryReadCfHtmlLoop rest := by
  obtain ⟨o, av, g⟩ := a
  cases o <;> cases av <;> cases g <;>
    simp_all [tryReadCfHtmlLoop, PollAttempt.nonDeciding, PollAttempt.successOf,
      PollAttempt.definitiveUnavail]

/-- C7: the poll returns the data on a successful read after any run of
non-deciding attempts; returns `none` immediately (whatever would come
after) when an availability check definitively reports the format
unavailable; returns `none` when the attempt window is exhausted; and a
failed clipboard-format registration also yields `none`.  Exceptions are
environment inputs consumed by the loop, never outputs: the result type
has no error case. -/
theorem try_read_cf_html_outcomes :
    (∀ attempts, try_read_cf_html false attempts = none) ∧
    (∀ a rest, a.nonDeciding = true →
        tryReadCfHtmlLoop (a :: rest) = tryReadCfHtmlLoop rest) ∧
    (∀ pre a post d, (∀ x ∈ pre, x.nonDeciding = true) → a.successOf = some d →
        try_read_cf_html true (pre ++ a :: post) = some d) ∧
    (∀ pre a post, (∀ x ∈ pre, x.nonDeciding = true) → a.definitiveUnavail = true →
        try_read_cf_html true (pre ++ a :: post) = none) ∧
    (∀ attempts, (∀ x ∈ attempts, x.nonDeciding = true) →
        try_read_cf_html true attempts = none) := by
  refine ⟨fun attempts => rfl, loop_skip_nonDeciding, ?_, ?_, ?_⟩
  · intro pre a post d hpre hsucc
    unfold try_read_cf_html
    rw [if_pos rfl]
    induction pre with
    | nil =>
      obtain ⟨o, av, g⟩ := a
      cases o <;> cases av <;> cases g <;>
        simp_all [tryReadCfHtmlLoop, PollAttempt.successOf]
    | cons x xs ih =>
      rw [List.cons_append, loop_skip_nonDeciding x _ (hpre x (by simp))]
      exact ih fun y hy => hpre y (by simp [hy])
  · intro pre a post hpre hunav
    unfold try_read_cf_html
    rw [if_pos rfl]
    induction pre with
    | nil =>
      obtain ⟨o, av, g⟩ := a
      cases o <;> cases av <;> cases g <;>
        simp_all [tryReadCfHtmlLoop, PollAttempt.definitiveUnavail]
    | cons x xs ih =>
      rw [List.cons_append, loop_skip_nonDeciding x _ (hpre x (by simp))]
      exact ih fun y hy => hpre y (by simp [hy])
  · intro attempts hall
    unfold try_read_cf_html
    rw [if_pos rfl]
    induction attempts with
    | nil => rfl
    | cons x xs ih =>
      rw [loop_skip_nonDeciding x _ (hall x (by simp))]
      exact ih fun y hy => hall y (by simp [hy])

/-- Witness for C7: the universally quantified outcomes applied to a
concrete attempt schedule (an open exception, an availability exception
and a `None` read before the deciding attempt). -/
theorem try_read_cf_html_outcomes_witness :
    try_read_cf_html false [⟨.ok, .avail, .value "x"⟩] = none ∧
    tryReadCfHtmlLoop [⟨.exc, .avail, .value "x"⟩, ⟨.ok, .avail, .value "x"⟩] =
      tryReadCfHtmlLoop [⟨.ok, .avail, .value "x"⟩] ∧
    try_read_cf_html true
      [⟨.exc, .avail, .value "x"⟩, ⟨.ok, .exc, .exc⟩, ⟨.ok, .avail, .null⟩,
       ⟨.ok, .avail, .value "data"⟩, ⟨.ok, .unavail, .exc⟩] = some "data" ∧
    try_read_cf_html true
      [⟨.ok, .exc, .exc⟩, ⟨.ok, .unavail, .exc⟩, ⟨.ok, .avail, .value "late"⟩] = none ∧
    try_read_cf_html true [⟨.exc, .avail, .value "x"⟩, ⟨.ok, .avail, .exc⟩] = none :=
  ⟨try_read_cf_html_outcomes.1 _,
   try_read_cf_html_outcomes.2.1 _ _ (by decide),
   try_read_cf_html_outcomes.2.2.1
     [⟨.exc, .avail, .value "x"⟩, ⟨.ok, .exc, .exc⟩, ⟨.ok, .avail, .null⟩]
     ⟨.ok, .avail, .value "data"⟩ [⟨.ok, .unavail, .exc⟩] "data" (by decide) (by decide),
   try_read_cf_html_outcomes.2.2.2.1
     [⟨.ok, .exc, .exc⟩] ⟨.ok, .unavail, .exc⟩ [⟨.ok, .avail, .value "late"⟩]
     (by decide) (by decide),
   try_read_cf_html_outcomes.2.2.2.2 _ (by decide)⟩


/-- C9: every token `_get_key_name` produces is already lowercase (lowering
it again is the identity), and each key of the source's modifier branches
normalizes into the fixed closed modifier set. -/
theorem key_name_lowercase_idempotent :
    (∀ k s, get_key_name k = some s → pyLower s = s) ∧
    (∀ k ∈ modifierSpecialKeys, ∃ s, get_key_name k = some s ∧ s ∈ MODIFIER_KEYS) := by
  constructor
  · intro k s h
    cases k with
    | special name =>
      unfold get_key_name at h
      simp only [] at h
      by_cases h1 : name = "ctrl" ∨ name = "ctrl_l" ∨ name = "ctrl_r"
      · rw [if_pos h1] at h
        injection h with h2
        rw [← h2]
        decide
      · rw [if_neg h1] at h
        by_cases h2 : name = "shift" ∨ name = "shift_l" ∨ name = "shift_r"
        · rw [if_pos h2] at h
          injection h with hx
          rw [← hx]
          decide
        · rw [if_neg h2] at h
          by_cases h3 : name = "alt" ∨ name = "alt_l" ∨ name = "alt_r"
          · rw [if_pos h3] at h
            injection h with hx
            rw [← hx]
            decide
          · rw [if_neg h3] at h
            by_cases h4 : name = "cmd"
            · rw [if_pos h4] at h
              injection h with hx
              rw [← hx]
              decide
            · rw [if_neg h4] at h
              injection h with hx
              rw [← hx]
              exact pyLower_idem name
    | keycode vk char =>
      cases vk with
      | none =>
        unfold get_key_name at h
        simp only [] at h
        cases h
      | some v =>
        unfold get_key_name at h
        simp only [] at h
        by_cases h1 : 65 ≤ v ∧ v ≤ 90
        · rw [if_pos h1] at h
          injection h with hx
          rw [← hx]
          unfold pyLower
          congr 1
          simp only [List.map]
          rw [charToLower_idem]
        · rw [if_neg h1] at h
          by_cases h2 : 48 ≤ v ∧ v ≤ 57
          · rw [if_pos h2] at h
            injection h with hx
            rw [← hx]
            unfold pyLower
            congr 1
            simp only [List.map]
            rw [charToLower_fixed]
            rw [charOfNat_toNat v (by omega)]
            omega
          · rw [if_neg h2] at h
            by_cases h3 : 96 ≤ v ∧ v ≤ 105
            · rw [if_pos h3] at h
              injection h with hx
              rw [← hx]
              apply pyLower_fixed
              intro c hc
              rw [String.data_append] at hc
              rcases List.mem_append.mp hc with hm1 | hm2
              · apply charToLower_fixed
                have hm : c ∈ ['n', 'u', 'm'] := hm1
                fin_cases hm <;> decide
              · apply charToLower_fixed
                have hd : c.isDigit = true :=
                  natReprAux_digits (v - 96 + 1) (v - 96) (by omega) c hm2
                unfold Char.isDigit at hd
                have h48 : 48 ≤ c.toNat := decide_eq_true_iff.mp (Bool.and_elim_left hd)
                have h57 : c.toNat ≤ 57 := decide_eq_true_iff.mp (Bool.and_elim_right hd)
                omega
            · rw [if_neg h3] at h
              cases char with
              | none => cases h
              | some c =>
                simp only [] at h
                by_cases h4 : 32 ≤ c.toNat
                · rw [if_pos h4] at h
                  injection h with hx
                  rw [← hx]
                  exact pyLower_idem _
                · rw [if_neg h4] at h
                  cases h
  · intro k hk
    fin_cases hk <;>
      first
      | exact ⟨"ctrl", rfl, by decide⟩
      | exact ⟨"shift", rfl, by decide⟩
      | exact ⟨"alt", rfl, by decide⟩
      | exact ⟨"cmd", rfl, by decide⟩

/-- Witness for C9: the idempotence branch at a concrete key-code event and
the modifier branch at the left control key. -/
theorem key_name_lowercase_idempotent_witness :
    pyLower "a" = "a" ∧
    (∃ s, get_key_name (.special "ctrl_l") = some s ∧ s ∈ MODIFIER_KEYS) :=
  ⟨key_name_lowercase_idempotent.1 (.keycode (some 65) (some 'a')) "a" (by decide),
   key_name_lowercase_idempotent.2 (.special "ctrl_l") (by decide)⟩


/-- Set equality of the list model implies mutual membership. -/
theorem pySetEq_mem (a b : List String) (h : pySetEq a b = true) :
    (∀ x ∈ a, x ∈ b) ∧ (∀ x ∈ b, x ∈ a) := by
  unfold pySetEq at h
  rw [Bool.and_eq_true, List.all_eq_true, List.all_eq_true] at h
  constructor
  · intro x hx
    simpa using h.1 x hx
  · intro x hx
    simpa using h.2 x hx

/-- Three pairwise distinct elements cannot all lie in a two-element list. -/
theorem three_distinct_not_in_pair {p q a b y : String}
    (hab : a ≠ b) (hya : y ≠ a) (hyb : y ≠ b)
    (ha : a ∈ [p, q]) (hb : b ∈ [p, q]) (hy : y ∈ [p, q]) : False := by
  simp only [List.mem_cons, List.not_mem_nil, or_false] at ha hb hy
  rcases ha with ha | ha <;> rcases hb with hb | hb <;> rcases hy with hy | hy <;>
    simp_all

/-- Every entry of the reserved table is a pair of two distinct tokens. -/
theorem reserved_table_pairs :
    ∀ cd ∈ SYSTEM_HOTKEY_DESCRIPTIONS, ∃ p q, cd.1 = [p, q] ∧ p ≠ q := by
  intro cd hcd
  fin_cases hcd <;> exact ⟨_, _, rfl, by decide⟩

/-- A strict superset of a reserved combination set-equals no table entry. -/
theorem superset_matches_no_entry (keys combo : List String) (descKey : String)
    (hmem : (combo, descKey) ∈ SYSTEM_HOTKEY_DESCRIPTIONS)
    (hsub : ∀ x ∈ combo, x ∈ keys) (hy : ∃ y ∈ keys, y ∉ combo) :
    ∀ cd ∈ SYSTEM_HOTKEY_DESCRIPTIONS, pySetEq keys cd.1 = false := by
  intro cd hcd
  obtain ⟨a, b, hab1, hab2⟩ := reserved_table_pairs (combo, descKey) hmem
  have hab : combo = [a, b] := hab1
  obtain ⟨p, q, hpq1, _⟩ := reserved_table_pairs cd hcd
  obtain ⟨y, hyk, hyc⟩ := hy
  cases hEq : pySetEq keys cd.1 with
  | false => rfl
  | true =>
    exfalso
    obtain ⟨hfwd, _⟩ := pySetEq_mem keys cd.1 hEq
    have hay : y ≠ a := by
      intro hcontra
      apply hyc
      rw [hcontra, hab]
      simp
    have hby : y ≠ b := by
      intro hcontra
      apply hyc
      rw [hcontra, hab]
      simp
    have hain : a ∈ keys := hsub a (by rw [hab]; simp)
    have hbin : b ∈ keys := hsub b (by rw [hab]; simp)
    refine @three_distinct_not_in_pair p q a b y hab2 hay hby ?_ ?_ ?_
    · rw [← hpq1]; exact hfwd a hain
    · rw [← hpq1]; exact hfwd b hbin
    · rw [← hpq1]; exact hfwd y hyk

/-- If no table entry set-matches the keys, the validator result is never
a reserved-combination error. -/
theorem validate_no_reserved_of_find_none (keys : List String) (r : String) (d : Bool)
    (h : (SYSTEM_HOTKEY_DESCRIPTIONS.find? fun cd => pySetEq keys cd.1) = none)
    (msg : TransMsg) (hv : validate_hotkey_keys keys r d = some msg) :
    (∀ dk, msg ≠ .system_reserved_long dk) ∧ (∀ ct, msg ≠ .system_reserved_short ct) := by
  unfold validate_hotkey_keys at hv
  rw [h] at hv
  simp only [] at hv
  split at hv
  · injection hv with hv
    rw [← hv]
    constructor <;> intro x <;> simp
  · split at hv
    · injection hv with hv
      rw [← hv]
      constructor <;> intro x <;> simp
    · split at hv
      · injection hv with hv
        rw [← hv]
        cases d <;> constructor <;> intro x <;> simp
      · simp at hv

/-- C10: the reserved-combination rule fires only on exact set equality
with a table entry.  A strict superset of a reserved combination is never
rejected as reserved, and it passes validation outright whenever the
modifier, normal-key and shift-only rules are also satisfied. -/
theorem reserved_rejection_requires_exact_match :
    (∀ keys r d combo descKey, (combo, descKey) ∈ SYSTEM_HOTKEY_DESCRIPTIONS →
        (∀ x ∈ combo, x ∈ keys) → (∃ y ∈ keys, y ∉ combo) →
        ∀ msg, validate_hotkey_keys keys r d = some msg →
          (∀ dk, msg ≠ .system_reserved_long dk) ∧
          (∀ ct, msg ≠ .system_reserved_short ct)) ∧
    (∀ keys r d combo descKey, (combo, descKey) ∈ SYSTEM_HOTKEY_DESCRIPTIONS →
        (∀ x ∈ combo, x ∈ keys) → (∃ y ∈ keys, y ∉ combo) →
        (∃ k ∈ keys, k ∈ MODIFIER_KEYS) → (∃ k ∈ keys, k ∉ MODIFIER_KEYS) →
        pySetEq (keys.filter fun k => k ∈ MODIFIER_KEYS) ["shift"] = false →
        validate_hotkey_keys keys r d = none) := by
  have hfind : ∀ keys combo descKey, (combo, descKey) ∈ SYSTEM_HOTKEY_DESCRIPTIONS →
      (∀ x ∈ combo, x ∈ keys) → (∃ y ∈ keys, y ∉ combo) →
      (SYSTEM_HOTKEY_DESCRIPTIONS.find? fun cd => pySetEq keys cd.1) = none := by
    intro keys combo descKey hmem hsub hy
    rw [List.find?_eq_none]
    intro cd hcd
    rw [superset_matches_no_entry keys combo descKey hmem hsub hy cd hcd]
    simp
  constructor
  · intro keys r d combo descKey hmem hsub hy msg hv
    exact validate_no_reserved_of_find_none keys r d
      (hfind keys combo descKey hmem hsub hy) msg hv
  · intro keys r d combo descKey hmem hsub hy hex hnx hshift
    unfold validate_hotkey_keys
    have hmod : keys.any (fun k => decide (k ∈ MODIFIER_KEYS)) = true := by
      rw [List.any_eq_true]
      obtain ⟨k, hk, hm⟩ := hex
      exact ⟨k, hk, by simpa using hm⟩
    have hnorm : keys.any (fun k => decide (k ∉ MODIFIER_KEYS)) = true := by
      rw [List.any_eq_true]
      obtain ⟨k, hk, hm⟩ := hnx
      exact ⟨k, hk, by simpa using hm⟩
    rw [hmod, hnorm]
    simp only [Bool.not_true, Bool.false_eq_true, if_false]
    rw [hshift]
    simp only [Bool.false_eq_true, if_false]
    rw [hfind keys combo descKey hmem hsub hy]

/-- Witness for C10 at the strict superset `{ctrl, shift, c}` of the
reserved combination `{ctrl, c}`. -/
theorem reserved_rejection_requires_exact_match_witness :
    validate_hotkey_keys ["ctrl", "shift", "c"] "" true = none :=
  reserved_rejection_requires_exact_match.2 ["ctrl", "shift", "c"] "" true
    ["ctrl", "c"] "hotkey.recorder.system.ctrl_c" (by decide) (by decide)
    ⟨"shift", by decide, by decide⟩
    ⟨"ctrl", by decide, by decide⟩ ⟨"c", by decide, by decide⟩ (by decide)

/-- Inserting at a chosen position is one of the enumerated insertions. -/
theorem mem_insertEverywhere {α : Type} (x : α) :
    ∀ (l1 l2 : List α), (l1 ++ x :: l2) ∈ insertEverywhere x (l1 ++ l2) := by
  intro l1
  induction l1 with
  | nil => intro l2; cases l2 <;> simp [insertEverywhere]
  | cons y ys ih =>
    intro l2
    simp only [List.cons_append, insertEverywhere, List.mem_cons]
    right
    exact List.mem_map.mpr ⟨ys ++ x :: l2, ih l2, rfl⟩

/-- `allPerms` is complete: it contains every permutation of the list. -/
theorem perm_mem_allPerms {α : Type} [DecidableEq α] :
    ∀ (l p : List α), p.Perm l → p ∈ allPerms l := by
  intro l
  induction l with
  | nil =>
    intro p hp
    rw [hp.eq_nil]
    simp [allPerms]
  | cons x xs ih =>
    intro p hp
    have hx : x ∈ p := hp.mem_iff.mpr (by simp)
    obtain ⟨l1, l2, rfl⟩ := List.append_of_mem hx
    have hperm : (l1 ++ l2).Perm xs := by
      have h1 : (x :: (l1 ++ l2)).Perm (l1 ++ x :: l2) := List.perm_middle.symm
      exact (List.perm_cons x).mp (h1.trans hp)
    unfold allPerms
    exact List.mem_flatMap.mpr ⟨l1 ++ l2, ih _ hperm, mem_insertEverywhere x l1 l2⟩


set_option maxRecDepth 100000

/-- C3: pressing the `{ctrl, alt, a}` chord in any order and releasing all
three keys in any order produces exactly one `onFinish` invocation, with
the combination `<ctrl>+<alt>+a` and no error; releasing only ctrl and alt
while `a` stays pressed produces no `onFinish` invocation. -/
theorem chord_completion :
    (∀ p, p.Perm chordPresses → ∀ r, r.Perm chordReleases →
      ((procEvents (startState true true) (p ++ r)).2.filter CallbackCall.isFinish) =
        [.finish (some "<ctrl>+<alt>+a") none]) ∧
    (∀ p, p.Perm chordPresses →
      ((procEvents (startState true true)
        (p ++ [.release (.special "ctrl"), .release (.special "alt")])).2.filter
          CallbackCall.isFinish) = []) := by
  have H1 : ∀ p ∈ allPerms chordPresses, ∀ r ∈ allPerms chordReleases,
      ((procEvents (startState true true) (p ++ r)).2.filter CallbackCall.isFinish) =
        [.finish (some "<ctrl>+<alt>+a") none] := by decide
  have H2 : ∀ p ∈ allPerms chordPresses,
      ((procEvents (startState true true)
        (p ++ [.release (.special "ctrl"), .release (.special "alt")])).2.filter
          CallbackCall.isFinish) = [] := by decide
  constructor
  · intro p hp r hr
    exact H1 p (perm_mem_allPerms _ p hp) r (perm_mem_allPerms _ r hr)
  · intro p hp
    exact H2 p (perm_mem_allPerms _ p hp)

/-- Witness for C3 at the in-order press and release sequences. -/
theorem chord_completion_witness :
    ((procEvents (startState true true) (chordPresses ++ chordReleases)).2.filter
      CallbackCall.isFinish) = [.finish (some "<ctrl>+<alt>+a") none] ∧
    ((procEvents (startState true true)
      (chordPresses ++ [.release (.special "ctrl"), .release (.special "alt")])).2.filter
        CallbackCall.isFinish) = [] :=
  ⟨chord_completion.1 chordPresses (List.Perm.refl _) chordReleases (List.Perm.refl _),
   chord_completion.2 chordPresses (List.Perm.refl _)⟩


/-- A recorder that is not recording ignores events entirely. -/
theorem procEvent_not_recording (st : RecorderState) (e : KeyEvent)
    (h : st.recording = false) : procEvent st e = (st, []) := by
  cases e with
  | press k =>
    unfold procEvent on_key_press
    rw [h]
    rfl
  | release k =>
    unfold procEvent on_key_release
    rw [h]
    rfl

/-- `_finish_recording` emits nothing or exactly one finish call, and in
either case leaves the recorder stopped. -/
theorem finish_recording_shape (st : RecorderState) :
    ((finish_recording st).2 = [] ∧ (finish_recording st).1.recording = false) ∨
    (∃ h er, (finish_recording st).2 = [CallbackCall.finish h er] ∧
      (finish_recording st).1.recording = false) := by
  unfold finish_recording
  split
  · cases hcb : st.hasFinishCb with
    | true =>
      right
      exact ⟨none, some .no_key_detected, by simp [stop_recording, hcb],
        by simp [stop_recording]⟩
    | false =>
      left
      exact ⟨by simp [stop_recording, hcb], by simp [stop_recording]⟩
  · cases hcb : st.hasFinishCb with
    | true =>
      right
      exact ⟨(match validate_hotkey st with
              | some _ => none
              | none => some (generate_hotkey_string st.all_pressed_keys)),
             validate_hotkey st, by simp [stop_recording, hcb],
             by simp [stop_recording]⟩
    | false =>
      left
      exact ⟨by simp [stop_recording, hcb], by simp [stop_recording]⟩

/-- Every single event produces no call, one update call, or one finish
call; a finish call leaves the recorder stopped. -/
theorem procEvent_shape (st : RecorderState) (e : KeyEvent) :
    (procEvent st e).2 = [] ∨
    (∃ s, (procEvent st e).2 = [CallbackCall.update s]) ∨
    (∃ h er, (procEvent st e).2 = [CallbackCall.finish h er] ∧
      (procEvent st e).1.recording = false) := by
  cases e with
  | press k =>
    unfold procEvent on_key_press
    by_cases hr : st.recording
    · rw [hr]
      simp only [Bool.not_true, Bool.false_eq_true, if_false]
      cases get_key_name k with
      | none => left; rfl
      | some name =>
        simp only []
        unfold notify_update
        split
        · right; left; exact ⟨_, rfl⟩
        · left; rfl
    · have hf : st.recording = false := by
        cases hb : st.recording with
        | false => rfl
        | true => exact absurd hb hr
      rw [hf]
      left; rfl
  | release k =>
    unfold procEvent on_key_release
    by_cases hr : st.recording
    · rw [hr]
      simp only [Bool.not_true, Bool.false_eq_true, if_false]
      cases get_key_name k with
      | none => left; rfl
      | some name =>
        simp only []
        split
        · rcases finish_recording_shape _ with ⟨h1, _⟩ | ⟨h, er, h1, h2⟩
          · left; exact h1
          · right; right; exact ⟨h, er, h1, h2⟩
        · left; rfl
    · have hf : st.recording = false := by
        cases hb : st.recording with
        | false => rfl
        | true => exact absurd hb hr
      rw [hf]
      left; rfl

/-- Once stopped, a recorder stays silent for any further event sequence. -/
theorem procEvents_not_recording (st : RecorderState) (es : List KeyEvent)
    (h : st.recording = false) : procEvents st es = (st, []) := by
  induction es with
  | nil => rfl
  | cons e es ih =>
    unfold procEvents
    rw [procEvent_not_recording st e h]
    simp only []
    rw [ih]
    rfl

/-- `terminalFinish` over a prefix with no finish calls. -/
theorem terminalFinish_append (t1 t2 : List CallbackCall)
    (h : ∀ c ∈ t1, c.isFinish = false) :
    terminalFinish (t1 ++ t2) = terminalFinish t2 := by
  induction t1 with
  | nil => rfl
  | cons c cs ih =>
    rw [List.cons_append]
    show (if c.isFinish = true then (cs ++ t2).isEmpty else terminalFinish (cs ++ t2)) =
      terminalFinish t2
    rw [h c (by simp)]
    simp only [Bool.false_eq_true, if_false]
    exact ih fun x hx => h x (by simp [hx])


/-- Adding an element to a set model never produces the empty set. -/
theorem pySetAdd_not_empty (s : List String) (x : String) :
    (pySetAdd s x).isEmpty = false := by
  unfold pySetAdd
  split
  · rename_i hmem
    cases s with
    | nil => simp at hmem
    | cons a as => rfl
  · cases s <;> rfl

/-- Release events never fire `onUpdate`. -/
theorem on_key_release_no_update (st : RecorderState) (k : PyKey) :
    ((on_key_release st k).2.filter CallbackCall.isUpdate) = [] := by
  unfold on_key_release
  by_cases hr : st.recording
  · rw [hr]
    simp only [Bool.not_true, Bool.false_eq_true, if_false]
    cases get_key_name k with
    | none => rfl
    | some name =>
      simp only []
      split
      · rcases finish_recording_shape _ with ⟨h1, _⟩ | ⟨h, er, h1, _⟩
        · rw [h1]
          rfl
        · rw [h1]
          rfl
      · rfl
  · have hf : st.recording = false := by
      cases hb : st.recording with
      | false => rfl
      | true => exact absurd hb hr
    rw [hf]
    rfl

/-- Whole-trace discipline: any finish call in a trace is its last call. -/
theorem procEvents_terminalFinish (es : List KeyEvent) :
    ∀ st, terminalFinish (procEvents st es).2 = true := by
  induction es with
  | nil => intro st; rfl
  | cons e es ih =>
    intro st
    have heq : procEvents st (e :: es) =
        ((procEvents (procEvent st e).1 es).1,
         (procEvent st e).2 ++ (procEvents (procEvent st e).1 es).2) := rfl
    rw [heq]
    simp only []
    rcases procEvent_shape st e with h0 | ⟨s, h1⟩ | ⟨h, er, h1, h2⟩
    · rw [h0, List.nil_append]
      exact ih _
    · rw [h1, terminalFinish_append [CallbackCall.update s] _
        (by intro c hc; simp at hc; rw [hc]; rfl)]
      exact ih _
    · rw [h1, procEvents_not_recording _ es h2]
      rfl

/-- C6 counterexample: after pressing ctrl and a, releasing ctrl changes
the key state (the pressed set shrinks) yet fires no `onUpdate` — the
claim that `onUpdate` fires on every key-state change, releases included,
is false. -/
theorem release_changes_state_without_update :
    ((on_key_release ((procEvents (startState true true)
        [.press (.special "ctrl"), .press (.keycode (some 65) (some 'a'))]).1)
      (.special "ctrl")).2.filter CallbackCall.isUpdate) = [] ∧
    (on_key_release ((procEvents (startState true true)
        [.press (.special "ctrl"), .press (.keycode (some 65) (some 'a'))]).1)
      (.special "ctrl")).1.pressed_keys ≠
    ((procEvents (startState true true)
        [.press (.special "ctrl"), .press (.keycode (some 65) (some 'a'))]).1).pressed_keys := by
  decide

/-- C6 (amended): while recording, `onUpdate` fires on every key press
whose normalization yields a token (when an update callback is supplied),
and never on releases; `onFinish` is fired at most once per session and is
terminal — in every event trace, a finish call is the last callback
invocation. -/
theorem recorder_callback_discipline :
    (∀ st k, ((on_key_release st k).2.filter CallbackCall.isUpdate) = []) ∧
    (∀ st k name, st.recording = true → st.hasUpdateCb = true →
        get_key_name k = some name →
        (on_key_press st k).2 =
          [.update (format_keys_for_display (pySetAdd st.all_pressed_keys name))]) ∧
    (∀ st es, terminalFinish (procEvents st es).2 = true) := by
  refine ⟨on_key_release_no_update, ?_, fun st es => procEvents_terminalFinish es st⟩
  intro st k name hrec hcb hname
  unfold on_key_press
  rw [hrec]
  simp only [Bool.not_true, Bool.false_eq_true, if_false]
  rw [hname]
  simp only []
  unfold notify_update
  rw [if_pos]
  rw [hcb, pySetAdd_not_empty]
  rfl

/-- Witness for C6 at concrete states: a release that fires nothing, a
press that fires exactly one update, and the chord trace's terminal
finish. -/
theorem recorder_callback_discipline_witness :
    ((on_key_release (startState true true) (.special "ctrl")).2.filter
      CallbackCall.isUpdate) = [] ∧
    (on_key_press (startState true true) (.special "ctrl")).2 =
      [.update (format_keys_for_display (pySetAdd [] "ctrl"))] ∧
    terminalFinish (procEvents (startState true true)
      (chordPresses ++ chordReleases)).2 = true :=
  ⟨recorder_callback_discipline.1 (startState true true) (.special "ctrl"),
   recorder_callback_discipline.2.1 (startState true true) (.special "ctrl") "ctrl"
     rfl rfl rfl,
   recorder_callback_discipline.2.2 (startState true true)
     (chordPresses ++ chordReleases)⟩

/-- Strict string comparison is asymmetric. -/
theorem strLtB_asymm : ∀ (a b : List Char), strLtB a b = true → strLtB b a = false
  | [], [] => by intro h; simp [strLtB] at h
  | [], _ :: _ => by intro _; rfl
  | _ :: _, [] => by intro h; simp [strLtB] at h
  | a :: as, b :: bs => by
    intro h
    unfold strLtB at h ⊢
    by_cases hab : a < b
    · have hba : ¬b < a := lt_asymm hab
      have hbe : ¬b = a := fun he => absurd hab (by rw [he]; exact lt_irrefl a)
      rw [if_neg hba, if_neg hbe]
    · rw [if_neg hab] at h
      by_cases heq : a = b
      · rw [if_pos heq] at h
        subst heq
        rw [if_neg (lt_irrefl a), if_pos rfl]
        exact strLtB_asymm as bs h
      · rw [if_neg heq] at h
        exact absurd h (by simp)

/-- The head of an insertion is the new element or the old head. -/
theorem insertSorted_head (x : String) (l : List String) :
    (insertSorted x l).head? = some x ∨ (insertSorted x l).head? = l.head? := by
  cases l with
  | nil => left; rfl
  | cons y ys =>
    unfold insertSorted
    split
    · right; rfl
    · left; rfl

/-- Insertion preserves sortedness. -/
theorem chain_insertSorted (x : String) : ∀ (l : List String),
    List.Chain' strLeP l → List.Chain' strLeP (insertSorted x l)
  | [], _ => by simp [insertSorted]
  | y :: ys, h => by
    have hparts := List.chain'_cons'.mp h
    unfold insertSorted
    by_cases hyx : pyStrLt y x = true
    · rw [if_pos hyx]
      rw [List.chain'_cons']
      constructor
      · intro z hz
        rcases insertSorted_head x ys with h1 | h1
        · rw [h1] at hz
          simp only [Option.mem_some_iff] at hz
          rw [← hz]
          show pyStrLt x y = false
          unfold pyStrLt at hyx ⊢
          exact strLtB_asymm _ _ hyx
        · rw [h1] at hz
          exact hparts.1 z hz
      · exact chain_insertSorted x ys hparts.2
    · rw [if_neg hyx]
      rw [List.chain'_cons']
      refine ⟨?_, h⟩
      intro z hz
      simp only [List.head?_cons, Option.mem_some_iff] at hz
      rw [← hz]
      show pyStrLt y x = false
      cases hb : pyStrLt y x with
      | false => rfl
      | true => exact absurd hb hyx

/-- Insertion permutes to consing. -/
theorem insertSorted_perm (x : String) : ∀ (l : List String),
    (insertSorted x l).Perm (x :: l)
  | [] => List.Perm.refl _
  | y :: ys => by
    unfold insertSorted
    split
    · exact ((insertSorted_perm x ys).cons y).trans (List.Perm.swap x y ys)
    · exact List.Perm.refl _

/-- `pySorted` permutes its input. -/
theorem pySorted_perm : ∀ (l : List String), (pySorted l).Perm l
  | [] => List.Perm.refl _
  | x :: xs => (insertSorted_perm x (pySorted xs)).trans ((pySorted_perm xs).cons x)

/-- `pySorted` output is sorted (ascending, code-point order). -/
theorem pySorted_chain : ∀ (l : List String), List.Chain' strLeP (pySorted l)
  | [] => List.chain'_nil
  | x :: xs => chain_insertSorted x _ (pySorted_chain xs)


/-- C8 counterexample: for the token set `{ctrl, b, f1}` the persisted
form sorts the bracket-wrapped tokens, not the raw tokens: although
`"b" < "f1"`, the generator emits `<ctrl>+<f1>+b`, not the
`<ctrl>+b+<f1>` that raw-token lexicographic order would give. -/
theorem generate_hotkey_sorts_after_wrapping :
    pyStrLt "b" "f1" = true ∧
    generate_hotkey_string ["ctrl", "b", "f1"] = "<ctrl>+<f1>+b" ∧
    generate_hotkey_string ["ctrl", "b", "f1"] ≠
      String.intercalate "+" ["<ctrl>", wrapNonModifier "b", wrapNonModifier "f1"] := by
  decide

/-- C8 (amended): the display form for `{ctrl, alt, a}` is
`"Ctrl + Alt + A"` and the persisted form is `"<ctrl>+<alt>+a"`, in any
token order; in general both put the modifiers first in the fixed order
ctrl, shift, alt, cmd; the display form then appends the remaining raw
tokens sorted lexicographically, title-cased and joined by `" + "`; the
persisted form wraps modifiers and multi-character tokens in angle
brackets and appends the remaining WRAPPED tokens sorted lexicographically
(so wrapped multi-character keys sort before bare single-character keys),
joined by `"+"`. -/
theorem hotkey_formatting :
    (∀ l ∈ allPerms ["ctrl", "alt", "a"],
      format_keys_for_display l = "Ctrl + Alt + A" ∧
      generate_hotkey_string l = "<ctrl>+<alt>+a") ∧
    (∀ tokens : List String, tokens ≠ [] → ∃ ks,
      ks.Perm (tokens.filter fun k => k ∉ modifier_order) ∧
      List.Chain' strLeP ks ∧
      format_keys_for_display tokens =
        String.intercalate " + "
          (((modifier_order.filter fun m => m ∈ tokens) ++ ks).map pyTitle)) ∧
    (∀ tokens : List String, ∃ ws,
      ws.Perm ((tokens.filter fun k => k ∉ modifier_order).map wrapNonModifier) ∧
      List.Chain' strLeP ws ∧
      generate_hotkey_string tokens =
        String.intercalate "+"
          (((modifier_order.filter fun m => m ∈ tokens).map wrapModifier) ++ ws)) := by
  refine ⟨by decide, ?_, ?_⟩
  · intro tokens hne
    refine ⟨pySorted (tokens.filter fun k => k ∉ modifier_order),
      pySorted_perm _, pySorted_chain _, ?_⟩
    unfold format_keys_for_display
    rw [if_neg]
    intro hcontra
    exact hne (by simpa [List.isEmpty_iff] using hcontra)
  · intro tokens
    refine ⟨pySorted ((tokens.filter fun k => k ∉ modifier_order).map wrapNonModifier),
      pySorted_perm _, pySorted_chain _, ?_⟩
    unfold generate_hotkey_string wrapNonModifier wrapModifier
    rfl

/-- Witness for C8 at the identity ordering of the chord tokens and at a
concrete mixed token set. -/
theorem hotkey_formatting_witness :
    (format_keys_for_display ["ctrl", "alt", "a"] = "Ctrl + Alt + A" ∧
     generate_hotkey_string ["ctrl", "alt", "a"] = "<ctrl>+<alt>+a") ∧
    (∃ ks, ks.Perm (["ctrl", "b", "f1"].filter fun k => k ∉ modifier_order) ∧
      List.Chain' strLeP ks ∧
      format_keys_for_display ["ctrl", "b", "f1"] =
        String.intercalate " + "
          (((modifier_order.filter fun m => m ∈ ["ctrl", "b", "f1"]) ++ ks).map pyTitle)) :=
  ⟨hotkey_formatting.1 ["ctrl", "alt", "a"] (by decide),
   hotkey_formatting.2.1 ["ctrl", "b", "f1"] (by decide)⟩

end PasteMD
